import Mathlib

/-!
Verification of the contentplanner repository's local-first store and sync
adapter. The definitions below are shallow embeddings of the TypeScript
source: the untyped JSON-like world (`RawValue`) models the values flowing
through `migrate` and `importState` (src/unnamed/part_003), the typed world
models the store's domain actions, and the adapter state machines model the
backup adapter (src/unnamed/part_010).
-/

namespace ContentPlanner

/-- A JavaScript value as seen by the persistence and migration code:
`null`, `undefined`, booleans, (integral) numbers, strings, arrays and
plain objects. Objects are association lists in insertion order, which is
the order JS preserves for string keys. -/
inductive RawValue where
  | null
  | undef : RawValue
  | bool (b : Bool)
  | num (n : Int)
  | str (s : String)
  | arr (elems : List RawValue)
  | obj (fields : List (String × RawValue))
deriving Repr

mutual
/-- Structural equality test for raw values. -/
def beqRaw : RawValue → RawValue → Bool
  | .null, .null => true
  | .undef, .undef => true
  | .bool a, .bool b => a == b
  | .num a, .num b => a == b
  | .str a, .str b => a == b
  | .arr a, .arr b => beqRawList a b
  | .obj a, .obj b => beqRawFields a b
  | _, _ => false

def beqRawList : List RawValue → List RawValue → Bool
  | [], [] => true
  | x :: xs, y :: ys => beqRaw x y && beqRawList xs ys
  | _, _ => false

def beqRawFields : List (String × RawValue) → List (String × RawValue) → Bool
  | [], [] => true
  | (k, v) :: xs, (l, w) :: ys => k == l && beqRaw v w && beqRawFields xs ys
  | _, _ => false
end

theorem beqRaw_iff_eq : ∀ a b : RawValue, beqRaw a b = true ↔ a = b := by
  have main : ∀ n : Nat, ∀ a b : RawValue, sizeOf a ≤ n → (beqRaw a b = true ↔ a = b) := by
    intro n
    induction n with
    | zero =>
      intro a b h
      exact absurd h (by cases a <;> simp)
    | succ n ih =>
      intro a b h
      cases a with
      | null => cases b <;> simp [beqRaw]
      | undef => cases b <;> simp [beqRaw]
      | bool x => cases b <;> simp [beqRaw]
      | num x => cases b <;> simp [beqRaw]
      | str x => cases b <;> simp [beqRaw]
      | arr xs =>
        cases b <;> simp only [beqRaw, reduceCtorEq, iff_false] <;> try exact Bool.noConfusion
        case arr ys =>
          simp only [RawValue.arr.injEq]
          have hxs : sizeOf xs ≤ n := by
            have := h; simp at this; omega
          clear h
          induction xs generalizing ys with
          | nil => cases ys <;> simp [beqRawList]
          | cons x xs ihx =>
            cases ys with
            | nil => simp [beqRawList]
            | cons y ys =>
              have hx : sizeOf x ≤ n := by simp at hxs; omega
              have hxs' : sizeOf xs ≤ n := by simp at hxs; omega
              simp [beqRawList, Bool.and_eq_true, ih x y hx, ihx ys hxs']
      | obj fs =>
        cases b <;> simp only [beqRaw, reduceCtorEq, iff_false] <;> try exact Bool.noConfusion
        case obj gs =>
          simp only [RawValue.obj.injEq]
          have hfs : sizeOf fs ≤ n := by
            have := h; simp at this; omega
          clear h
          induction fs generalizing gs with
          | nil => cases gs <;> simp [beqRawFields]
          | cons f fs ihf =>
            cases gs with
            | nil => simp [beqRawFields]
            | cons g gs =>
              obtain ⟨k, v⟩ := f
              obtain ⟨l, w⟩ := g
              have hv : sizeOf v ≤ n := by simp at hfs; omega
              have hfs' : sizeOf fs ≤ n := by simp at hfs; omega
              simp [beqRawFields, Bool.and_eq_true, ih v w hv, ihf gs hfs',
                and_assoc]
  exact fun a b => main (sizeOf a) a b le_rfl

instance : DecidableEq RawValue :=
  fun a b => decidable_of_iff (beqRaw a b = true) (beqRaw_iff_eq a b)

instance {ε α : Type} [DecidableEq ε] [DecidableEq α] : DecidableEq (Except ε α) :=
  fun a b =>
  match a, b with
  | .ok x, .ok y => decidable_of_iff (x = y) (by simp)
  | .error x, .error y => decidable_of_iff (x = y) (by simp)
  | .ok _, .error _ => isFalse (by simp)
  | .error _, .ok _ => isFalse (by simp)

namespace RawValue

/-- JS truthiness: `null`, `undefined`, `false`, `0` and the empty string
are falsy; every other value (including empty arrays and objects) is
truthy. -/
def truthy : RawValue → Bool
  | .null => false
  | .undef => false
  | .bool b => b
  | .num n => n != 0
  | .str s => s ≠ ""
  | .arr _ => true
  | .obj _ => true

/-- `Array.isArray`. -/
def isArr : RawValue → Bool
  | .arr _ => true
  | _ => false

/-- `typeof v === 'object'` for non-null values: arrays and objects. -/
def isObjLike : RawValue → Bool
  | .arr _ => true
  | .obj _ => true
  | _ => false

def isNullish : RawValue → Bool
  | .null => true
  | .undef => true
  | _ => false

end RawValue

/-- Replace the first binding of `k` in place, or append it: the semantics
of a JS property assignment / object-literal override on an existing
object. -/
def alSet {α : Type} : List (String × α) → String → α → List (String × α)
  | [], k, v => [(k, v)]
  | (k', v') :: rest, k, v =>
      if k' = k then (k, v) :: rest else (k', v') :: alSet rest k v

/-- First binding of `k`, if any. -/
def alGet {α : Type} : List (String × α) → String → Option α
  | [], _ => none
  | (k', v') :: rest, k => if k' = k then some v' else alGet rest k

/-- JS property read `v[k]`: throws (`.error`) on `null`/`undefined`,
returns `undefined` for missing keys and for primitive receivers. -/
def getProp : RawValue → String → Except Unit RawValue
  | .null, _ => .error ()
  | .undef, _ => .error ()
  | .obj fs, k => .ok ((alGet fs k).getD .undef)
  | _, _ => .ok (.undef)

/-- The fields contributed by a JS object spread `{...v}`: an object's own
fields, an array's index-keyed elements, a string's index-keyed characters,
and nothing for the remaining values. -/
def spreadFields : RawValue → List (String × RawValue)
  | .obj fs => fs
  | .arr xs => (xs.enum.map fun p => (toString p.1, p.2))
  | .str s => (s.data.enum.map fun p => (toString p.1, RawValue.str (String.mk [p.2])))
  | _ => []

mutual
/-- JS `String(v)` coercion (enough of it for object-key computation). -/
def toKeyString : RawValue → String
  | .null => "null"
  | .undef => "undefined"
  | .bool b => if b then "true" else "false"
  | .num n => toString n
  | .str s => s
  | .arr xs => joinKeys xs
  | .obj _ => "[object Object]"

/-- Array-to-string: elements joined by commas, with `null`/`undefined`
elements rendered as the empty string. -/
def joinKeys : List RawValue → String
  | [] => ""
  | [x] => (match x with | .null => "" | .undef => "" | y => toKeyString y)
  | x :: rest =>
      (match x with | .null => "" | .undef => "" | y => toKeyString y) ++ "," ++ joinKeys rest
end

/-- `Object.entries(v)` for the receivers the migration loop can meet:
objects yield their fields, arrays index-keyed elements, strings
index-keyed characters, everything else nothing. -/
def entriesOf : RawValue → List (String × RawValue)
  | .obj fs => fs
  | .arr xs => (xs.enum.map fun p => (toString p.1, p.2))
  | .str s => (s.data.enum.map fun p => (toString p.1, RawValue.str (String.mk [p.2])))
  | _ => []

/-! ## Default state and migration (src/unnamed/part_003)

`initGrid1x3` (lines 175-182), `getDefaultState` (379-416), the seed data
`migrate` installs for empty inputs (292-322), and `migrate` itself
(201-325). All `Date.now()` calls are threaded through an explicit `now`
parameter. `migrate` runs in `Except Unit` because JS property access on a
`null`/`undefined` array element throws. -/

/-- One empty cell of the fixed 1x3 origin grid. -/
def initGridCellRaw (c : Nat) : RawValue :=
  .obj [("id", .str ("r0-c" ++ toString c)), ("row", .num 0), ("col", .num (Int.ofNat c)),
        ("ideaId", .undef)]

/-- `initGrid1x3()` as a raw value. -/
def initGridRaw : RawValue :=
  .obj [("columns", .num 3), ("rows", .num 1),
        ("cells", .obj [("r0-c0", initGridCellRaw 0), ("r0-c1", initGridCellRaw 1),
                        ("r0-c2", initGridCellRaw 2)])]

/-- The two seed workspaces (getDefaultState lines 382-397, duplicated at
migrate lines 292-309). -/
def defaultWorkspacesRaw : RawValue :=
  .arr [
    .obj [("id", .str "ws-1"), ("name", .str "@motherboardsmoke"), ("color", .str "amber"),
          ("avatar", .str "/brand/mobo/avatar.png"), ("vibe", .str "/brand/mobo/vibe.png")],
    .obj [("id", .str "ws-2"), ("name", .str "@StephenJoking"), ("color", .str "red"),
          ("avatar", .str "/brand/stephen/avatar.png"), ("vibe", .str "/brand/stephen/vibe.png")]]

/-- One seed bin: only `id`, `workspace_id`, `name`, `color`, `presets`,
`sort_order` — no `hashtagDefaults`, `ideaIds` or `createdAt`. -/
def seedBinRaw (id ws name color : String) (sort : Int) : RawValue :=
  .obj [("id", .str id), ("workspace_id", .str ws), ("name", .str name), ("color", .str color),
        ("presets", .arr []), ("sort_order", .num sort)]

/-- The seven seed bins (getDefaultState lines 398-406, duplicated at
migrate lines 312-321). -/
def seedBinsList : List RawValue :=
  [seedBinRaw "bin-1" "ws-1" "Tech Talk" "blue" 0,
   seedBinRaw "bin-2" "ws-1" "Skit" "red" 1,
   seedBinRaw "bin-3" "ws-1" "Short Form Model" "amber" 2,
   seedBinRaw "bin-4" "ws-1" "Long Form Model" "emerald" 3,
   seedBinRaw "bin-5" "ws-1" "Meme" "purple" 4,
   seedBinRaw "bin-6" "ws-2" "Skit" "red" 0,
   seedBinRaw "bin-7" "ws-2" "Meme" "purple" 1]

/-- `getDefaultState()` (lines 379-416). -/
def defaultStateRaw : RawValue :=
  .obj [("version", .num 3), ("workspaces", defaultWorkspacesRaw),
        ("bins", .arr seedBinsList), ("ideas", .arr []), ("posts", .arr []),
        ("currentWorkspaceId", .str "ws-1"), ("done", .obj []),
        ("gridsByWorkspace", .obj [("ws-1", initGridRaw), ("ws-2", initGridRaw)])]

/-- The empty hashtag-defaults object `{youtube: [], tiktok: [], instagram: []}`. -/
def defaultHashtagsRaw : RawValue :=
  .obj [("youtube", .arr []), ("tiktok", .arr []), ("instagram", .arr [])]

/-- The bin normalization of migrate lines 260-269:
`{...bin, hashtagDefaults: bin.hashtagDefaults || {...}, ideaIds: bin.ideaIds || [],
createdAt: bin.createdAt || Date.now()}`. -/
def migrateBinE (now : Int) (bin : RawValue) : Except Unit RawValue := do
  let hd ← getProp bin "hashtagDefaults"
  let ii ← getProp bin "ideaIds"
  let ca ← getProp bin "createdAt"
  let fs := spreadFields bin
  let fs := alSet fs "hashtagDefaults" (if hd.truthy then hd else defaultHashtagsRaw)
  let fs := alSet fs "ideaIds" (if ii.truthy then ii else .arr [])
  let fs := alSet fs "createdAt" (if ca.truthy then ca else .num now)
  return .obj fs

/-- The idea normalization of migrate lines 272-289. -/
def migrateIdeaE (now : Int) (idea : RawValue) : Except Unit RawValue := do
  let textRaw ← getProp idea "text"
  let titleRaw ← getProp idea "title"
  let text := if textRaw.truthy then textRaw
              else if titleRaw.truthy then titleRaw else .str ""
  let statusRaw ← getProp idea "status"
  let status := if statusRaw.truthy then statusRaw else .str "brainstorming"
  let ca ← getProp idea "createdAt"
  let ht ← getProp idea "hashtags"
  let fs := spreadFields idea
  let fs := alSet fs "text" text
  let fs := alSet fs "status" status
  let fs := alSet fs "createdAt" (if ca.truthy then ca else .num now)
  let fs := alSet fs "hashtags"
      (if status = .str "working" then (if ht.truthy then ht else defaultHashtagsRaw) else ht)
  return .obj fs

/-- The grid-cell coercion of migrate lines 243-249:
`{id: cell.id, row: cell.row, col: cell.col,
ideaId: cell.ideaId != null ? String(cell.ideaId) : undefined}`. -/
def coerceCellE (cell : RawValue) : Except Unit RawValue := do
  let id ← getProp cell "id"
  let row ← getProp cell "row"
  let col ← getProp cell "col"
  let ideaId ← getProp cell "ideaId"
  return .obj [("id", id), ("row", row), ("col", col),
    ("ideaId", if ideaId.isNullish then .undef else .str (toKeyString ideaId))]

/-- One pass of the grid coercion loop (migrate lines 240-257) over a
single `gridsByWorkspace` entry. -/
def coerceGridEntryE (kv : String × RawValue) : Except Unit (String × RawValue) := do
  let g := kv.2
  if g.truthy then
    let cells ← getProp g "cells"
    if cells.truthy then
      let cleaned ← (entriesOf cells).mapM (fun ckv => do
        let c ← coerceCellE ckv.2
        return (ckv.1, c))
      let cols ← getProp g "columns"
      let rows ← getProp g "rows"
      return (kv.1, RawValue.obj [("columns", if cols.isNullish then .num 3 else cols),
                          ("rows", if rows.isNullish then .num 1 else rows),
                          ("cells", .obj cleaned)])
    else return kv
  else return kv

/-- `migrate(old)` (lines 201-325). The result object's key order follows
the source's construction order: the literal at lines 208-216 followed by
the `gridsByWorkspace` assignment at line 223. Note that the literal omits
`gridsByWorkspace`, so the check at line 222 is always true and the input's
`gridsByWorkspace` is discarded; only a legacy `grid` field survives, under
the current workspace key. -/
def migrateE (now : Int) (old : RawValue) : Except Unit RawValue := do
  if ¬(old.truthy ∧ old.isObjLike) then
    return defaultStateRaw
  let wsVal ← getProp old "workspaces"
  let binsVal ← getProp old "bins"
  let ideasVal ← getProp old "ideas"
  let postsVal ← getProp old "posts"
  let cwsVal ← getProp old "currentWorkspaceId"
  let doneVal ← getProp old "done"
  let workspaces0 := if wsVal.isArr then wsVal else .arr []
  let bins0 : List RawValue := match binsVal with | .arr xs => xs | _ => []
  let ideas0 : List RawValue := match ideasVal with | .arr xs => xs | _ => []
  let posts0 := if postsVal.isArr then postsVal else .arr []
  let currentWorkspaceId := if cwsVal.truthy then cwsVal else .str "ws-1"
  let done0 := if doneVal.truthy ∧ doneVal.isObjLike then doneVal else .obj []
  let wsKey := toKeyString currentWorkspaceId
  let gridVal ← getProp old "grid"
  let gbw0 : List (String × RawValue) := if gridVal.truthy then [(wsKey, gridVal)] else []
  let gbw1 := if ((alGet gbw0 wsKey).getD .undef).truthy then gbw0
              else alSet gbw0 wsKey initGridRaw
  let gbw2 ← gbw1.mapM coerceGridEntryE
  let bins1 ← bins0.mapM (migrateBinE now)
  let ideas1 ← ideas0.mapM (migrateIdeaE now)
  let workspaces1 := match workspaces0 with | .arr [] => defaultWorkspacesRaw | w => w
  let bins2 := if bins1.isEmpty then seedBinsList else bins1
  return .obj [("version", .num 3), ("workspaces", workspaces1), ("bins", .arr bins2),
    ("ideas", .arr ideas1), ("posts", posts0), ("currentWorkspaceId", currentWorkspaceId),
    ("done", done0), ("gridsByWorkspace", .obj gbw2)]

/-- The JS object spread `{...a, ...b}`. -/
def jsSpread2 (a b : RawValue) : RawValue :=
  .obj ((spreadFields b).foldl (fun acc kv => alSet acc kv.1 kv.2) (spreadFields a))

/-- `importState(snapshot)` (lines 985-1003): merge the snapshot over
`getDefaultState()`, run `migrate`, and replace the store's data fields —
so the store's data-only projection afterwards is exactly the migrate
output. -/
def importStateE (now : Int) (snapshot : RawValue) : Except Unit RawValue :=
  migrateE now (jsSpread2 defaultStateRaw snapshot)

/-! ## Typed domain model (src/unnamed/part_003, lines 7-142)

The store's action functions are written against the TypeScript interfaces,
so the domain actions are embedded over typed structures. TS optional
fields become `Option`; `Record<string, T>` becomes an association list;
`Date.now()` is an explicit `now : Int` argument. A TS `Partial<T>`
argument becomes a structure of `Option`-wrapped fields ("present in the
update object" versus absent). -/

inductive IdeaStatus where
  | brainstorming
  | working
  | done
deriving DecidableEq, Repr

structure Hashtags where
  youtube : Option (List String) := none
  tiktok : Option (List String) := none
  instagram : Option (List String) := none
deriving DecidableEq, Repr

structure Workspace where
  id : String
  name : String
  color : Option String := none
  avatar : Option String := none
  vibe : Option String := none
deriving DecidableEq, Repr

structure BinPreset where
  id : String
  name : String
  tagsText : String
deriving DecidableEq, Repr

structure Bin where
  id : String
  workspace_id : String
  name : String
  color : Option String := none
  presets : List BinPreset := []
  sort_order : Int
  createdAt : Option Int := none
  updatedAt : Option Int := none
  ideaIds : Option (List String) := none
  hashtagDefaults : Option Hashtags := none
deriving DecidableEq, Repr

structure Idea where
  id : String
  workspace_id : String
  bin_id : Option String
  text : String
  status : IdeaStatus
  createdAt : Int
  updatedAt : Option Int := none
  tags : Option (List String) := none
  title : Option String := none
  description : Option String := none
  hashtags : Option Hashtags := none
  script : Option String := none
  shotlist : Option String := none
  thumbnail : Option String := none
deriving DecidableEq, Repr

structure Platforms where
  tiktok : Bool
  instagram : Bool
  yt_shorts : Bool
  yt_long : Bool
deriving DecidableEq, Repr

structure Post where
  id : String
  workspace_id : String
  idea_id : Option String
  bin_id : Option String
  title : String
  type : String
  status : String
  post_date : Option String
  platforms : Platforms
  caption : String
  hashtagsText : String
  thumbnail_name : String
  video_final_name : String
  premiere_project_name : String
  assets_keywords : String
  location_note : String
  preview_base64 : Option String := none
deriving DecidableEq, Repr

structure DoneSnapshot where
  title : Option String := none
  description : Option String := none
  hashtags : Option Hashtags := none
  script : Option String := none
  shotlist : Option String := none
  thumbnail : Option String := none
  binId : Option String := none
  text : Option String := none
deriving DecidableEq, Repr

structure DoneRecord where
  id : String
  movedAt : Int
  workspaceId : Option String := none
  snapshot : DoneSnapshot
deriving DecidableEq, Repr

structure GridCell where
  id : String
  row : Nat
  col : Nat
  ideaId : Option String := none
deriving DecidableEq, Repr

structure GridState where
  columns : Nat
  rows : Nat
  cells : List (String × GridCell)
deriving DecidableEq, Repr

/-- The data-only projection `AppData` (lines 133-142): what
`getDataSnapshot` extracts and what `setState` merges. -/
structure AppData where
  version : Int
  workspaces : List Workspace
  bins : List Bin
  ideas : List Idea
  posts : List Post
  currentWorkspaceId : String
  done : List (String × DoneRecord)
  gridsByWorkspace : List (String × GridState)
deriving DecidableEq, Repr

/-- JS truthiness of a `string | null | undefined` value: `null`,
`undefined` and the empty string are falsy. -/
def strTruthy : Option String → Bool
  | some s => s ≠ ""
  | none => false

/-- `x || y` on a `string | null | undefined` left operand. -/
def jsOrStr (a : Option String) (b : String) : String :=
  match a with
  | some s => if s = "" then b else s
  | none => b

/-- `x || undefined` on a `string | null | undefined` operand: a falsy
value (absent or the empty string) collapses to `undefined`. -/
def jsOrUndef (a : Option String) : Option String :=
  match a with
  | some s => if s = "" then none else some s
  | none => none

/-- `initGrid1x3()` in the typed world. -/
def initGridT : GridState :=
  { columns := 3, rows := 1,
    cells := [("r0-c0", { id := "r0-c0", row := 0, col := 0 }),
              ("r0-c1", { id := "r0-c1", row := 0, col := 1 }),
              ("r0-c2", { id := "r0-c2", row := 0, col := 2 })] }

/-- `getDefaultState()` in the typed world. The seed bins carry no
`hashtagDefaults`, `ideaIds` or `createdAt`. -/
def defaultStateT : AppData :=
  { version := 3,
    workspaces :=
      [{ id := "ws-1", name := "@motherboardsmoke", color := some "amber",
         avatar := some "/brand/mobo/avatar.png", vibe := some "/brand/mobo/vibe.png" },
       { id := "ws-2", name := "@StephenJoking", color := some "red",
         avatar := some "/brand/stephen/avatar.png", vibe := some "/brand/stephen/vibe.png" }],
    bins :=
      [{ id := "bin-1", workspace_id := "ws-1", name := "Tech Talk", color := some "blue", sort_order := 0 },
       { id := "bin-2", workspace_id := "ws-1", name := "Skit", color := some "red", sort_order := 1 },
       { id := "bin-3", workspace_id := "ws-1", name := "Short Form Model", color := some "amber", sort_order := 2 },
       { id := "bin-4", workspace_id := "ws-1", name := "Long Form Model", color := some "emerald", sort_order := 3 },
       { id := "bin-5", workspace_id := "ws-1", name := "Meme", color := some "purple", sort_order := 4 },
       { id := "bin-6", workspace_id := "ws-2", name := "Skit", color := some "red", sort_order := 0 },
       { id := "bin-7", workspace_id := "ws-2", name := "Meme", color := some "purple", sort_order := 1 }],
    ideas := [], posts := [], currentWorkspaceId := "ws-1", done := [],
    gridsByWorkspace := [("ws-1", initGridT), ("ws-2", initGridT)] }

/-! ## Patch types for the `Partial<T>` action arguments -/

structure IdeaPatch where
  id : Option String := none
  workspace_id : Option String := none
  bin_id : Option (Option String) := none
  text : Option String := none
  status : Option IdeaStatus := none
  createdAt : Option Int := none
  updatedAt : Option (Option Int) := none
  tags : Option (Option (List String)) := none
  title : Option (Option String) := none
  description : Option (Option String) := none
  hashtags : Option (Option Hashtags) := none
  script : Option (Option String) := none
  shotlist : Option (Option String) := none
  thumbnail : Option (Option String) := none
deriving DecidableEq, Repr

/-- `{...idea, ...patch}`. -/
def applyIdeaPatch (p : IdeaPatch) (i : Idea) : Idea :=
  { id := p.id.getD i.id, workspace_id := p.workspace_id.getD i.workspace_id,
    bin_id := p.bin_id.getD i.bin_id, text := p.text.getD i.text,
    status := p.status.getD i.status, createdAt := p.createdAt.getD i.createdAt,
    updatedAt := p.updatedAt.getD i.updatedAt, tags := p.tags.getD i.tags,
    title := p.title.getD i.title, description := p.description.getD i.description,
    hashtags := p.hashtags.getD i.hashtags, script := p.script.getD i.script,
    shotlist := p.shotlist.getD i.shotlist, thumbnail := p.thumbnail.getD i.thumbnail }

structure BinPatch where
  id : Option String := none
  workspace_id : Option String := none
  name : Option String := none
  color : Option (Option String) := none
  presets : Option (List BinPreset) := none
  sort_order : Option Int := none
  createdAt : Option (Option Int) := none
  updatedAt : Option (Option Int) := none
  ideaIds : Option (Option (List String)) := none
  hashtagDefaults : Option (Option Hashtags) := none
deriving DecidableEq, Repr

/-- `{...bin, ...updates}`. -/
def applyBinPatch (p : BinPatch) (b : Bin) : Bin :=
  { id := p.id.getD b.id, workspace_id := p.workspace_id.getD b.workspace_id,
    name := p.name.getD b.name, color := p.color.getD b.color,
    presets := p.presets.getD b.presets, sort_order := p.sort_order.getD b.sort_order,
    createdAt := p.createdAt.getD b.createdAt, updatedAt := p.updatedAt.getD b.updatedAt,
    ideaIds := p.ideaIds.getD b.ideaIds,
    hashtagDefaults := p.hashtagDefaults.getD b.hashtagDefaults }

structure PostPatch where
  id : Option String := none
  workspace_id : Option String := none
  idea_id : Option (Option String) := none
  bin_id : Option (Option String) := none
  title : Option String := none
  type : Option String := none
  status : Option String := none
  post_date : Option (Option String) := none
  platforms : Option Platforms := none
  caption : Option String := none
  hashtagsText : Option String := none
  thumbnail_name : Option String := none
  video_final_name : Option String := none
  premiere_project_name : Option String := none
  assets_keywords : Option String := none
  location_note : Option String := none
  preview_base64 : Option (Option String) := none
deriving DecidableEq, Repr

/-- `{...post, ...updates}`. -/
def applyPostPatch (p : PostPatch) (q : Post) : Post :=
  { id := p.id.getD q.id, workspace_id := p.workspace_id.getD q.workspace_id,
    idea_id := p.idea_id.getD q.idea_id, bin_id := p.bin_id.getD q.bin_id,
    title := p.title.getD q.title, type := p.type.getD q.type,
    status := p.status.getD q.status, post_date := p.post_date.getD q.post_date,
    platforms := p.platforms.getD q.platforms, caption := p.caption.getD q.caption,
    hashtagsText := p.hashtagsText.getD q.hashtagsText,
    thumbnail_name := p.thumbnail_name.getD q.thumbnail_name,
    video_final_name := p.video_final_name.getD q.video_final_name,
    premiere_project_name := p.premiere_project_name.getD q.premiere_project_name,
    assets_keywords := p.assets_keywords.getD q.assets_keywords,
    location_note := p.location_note.getD q.location_note,
    preview_base64 := p.preview_base64.getD q.preview_base64 }

structure HashtagsPatch where
  youtube : Option (List String) := none
  tiktok : Option (List String) := none
  instagram : Option (List String) := none
deriving DecidableEq, Repr

/-! ## Domain actions (part_003 lines 606-1003)

Every action reads the current state, computes next data and commits it
through `setState`; the committed data is the same whether or not the
shallow-equality guard fires, so each action is embedded as a data
transform `AppData → AppData`. -/

def setWorkspace (id : String) (s : AppData) : AppData :=
  { s with currentWorkspaceId := id }

/-- `Math.max(...)` over a nonempty list, `-1` for the empty one (addBin
lines 615-617). -/
def maxSortOrder (l : List Int) : Int :=
  match l with
  | [] => -1
  | x :: xs => xs.foldl max x

def addBin (now : Int) (name : String) (s : AppData) : AppData :=
  let workspaceBins := s.bins.filter (fun b => b.workspace_id = s.currentWorkspaceId)
  let m := maxSortOrder (workspaceBins.map Bin.sort_order)
  let newBin : Bin :=
    { id := "bin-" ++ toString now, workspace_id := s.currentWorkspaceId,
      name := name, color := none, presets := [], sort_order := m + 1 }
  { s with bins := s.bins ++ [newBin] }

def updateBin (id : String) (p : BinPatch) (s : AppData) : AppData :=
  { s with bins := s.bins.map (fun b => if b.id = id then applyBinPatch p b else b) }

def deleteBin (id : String) (s : AppData) : AppData :=
  { s with
    bins := s.bins.filter (fun b => b.id ≠ id),
    ideas := s.ideas.map (fun i => if i.bin_id = some id then { i with bin_id := none } else i),
    posts := s.posts.map (fun p => if p.bin_id = some id then { p with bin_id := none } else p) }

def addIdea (now : Int) (bin_id : Option String) (text : String) (s : AppData) : AppData :=
  let newIdea : Idea :=
    { id := "idea-" ++ toString now, workspace_id := s.currentWorkspaceId,
      bin_id := bin_id, text := text, status := .brainstorming,
      createdAt := now, tags := some [] }
  { s with ideas := s.ideas ++ [newIdea] }

def updateIdea (id : String) (p : IdeaPatch) (s : AppData) : AppData :=
  { s with ideas := s.ideas.map (fun i => if i.id = id then applyIdeaPatch p i else i) }

def deleteIdea (id : String) (s : AppData) : AppData :=
  { s with ideas := s.ideas.filter (fun i => i.id ≠ id) }

/-- `setIdeaStatus` (lines 699-733). When moving to `working` with no
hashtags and a truthy `bin_id`, the bin's `hashtagDefaults` (or empty
arrays) are copied into the idea. -/
def setIdeaStatus (now : Int) (id : String) (status : IdeaStatus) (s : AppData) : AppData :=
  match s.ideas.find? (fun i => i.id = id) with
  | none => s
  | some idea =>
    let hashtagsUpd : Option Hashtags :=
      if status = .working ∧ idea.hashtags = none ∧ strTruthy idea.bin_id then
        match s.bins.find? (fun b => some b.id = idea.bin_id) with
        | some bin =>
          match bin.hashtagDefaults with
          | some hd => some { youtube := some (hd.youtube.getD []),
                              tiktok := some (hd.tiktok.getD []),
                              instagram := some (hd.instagram.getD []) }
          | none => some { youtube := some [], tiktok := some [], instagram := some [] }
        | none => some { youtube := some [], tiktok := some [], instagram := some [] }
      else none
    { s with ideas := s.ideas.map (fun i =>
        if i.id = id then
          { i with status := status, updatedAt := some now,
                   hashtags := match hashtagsUpd with | some h => some h | none => i.hashtags }
        else i) }

def updateIdeaFields (now : Int) (id : String) (p : IdeaPatch) (s : AppData) : AppData :=
  { s with ideas := s.ideas.map (fun i =>
      if i.id = id then { applyIdeaPatch p i with updatedAt := some now } else i) }

def moveIdeaToBin (now : Int) (ideaId : String) (binId : Option String) (s : AppData) : AppData :=
  { s with ideas := s.ideas.map (fun i =>
      if i.id = ideaId then { i with bin_id := binId, updatedAt := some now } else i) }

def updateBinHashtagDefaults (now : Int) (binId : String) (p : HashtagsPatch)
    (s : AppData) : AppData :=
  { s with bins := s.bins.map (fun b =>
      if b.id = binId then
        { b with
          hashtagDefaults := some
            { youtube := some (p.youtube.getD ((b.hashtagDefaults.bind Hashtags.youtube).getD [])),
              tiktok := some (p.tiktok.getD ((b.hashtagDefaults.bind Hashtags.tiktok).getD [])),
              instagram := some (p.instagram.getD ((b.hashtagDefaults.bind Hashtags.instagram).getD [])) },
          updatedAt := some now }
      else b) }

def promoteIdeaToPost (now : Int) (idea_id : String) (s : AppData) : AppData :=
  match s.ideas.find? (fun i => i.id = idea_id) with
  | none => s
  | some idea =>
    let newPost : Post :=
      { id := "post-" ++ toString now, workspace_id := idea.workspace_id,
        idea_id := some idea.id, bin_id := idea.bin_id,
        title := jsOrStr idea.title idea.text, type := "", status := "Idea",
        post_date := none,
        platforms := { tiktok := false, instagram := false, yt_shorts := false, yt_long := false },
        caption := jsOrStr idea.description "", hashtagsText := "",
        thumbnail_name := "", video_final_name := "", premiere_project_name := "",
        assets_keywords := "", location_note := "", preview_base64 := none }
    { s with posts := s.posts ++ [newPost] }

def updatePost (id : String) (p : PostPatch) (s : AppData) : AppData :=
  { s with posts := s.posts.map (fun q => if q.id = id then applyPostPatch p q else q) }

def deletePost (id : String) (s : AppData) : AppData :=
  { s with posts := s.posts.filter (fun p => p.id ≠ id) }

/-- `markIdeaPosted` (lines 823-858): no-op when the idea is missing or
already `done`; otherwise snapshot the working fields (a falsy `bin_id`
is recorded as absent, via `idea.bin_id || undefined`), flip the status
to `done` and store the record under the idea id. -/
def markIdeaPosted (now : Int) (ideaId : String) (s : AppData) : AppData :=
  match s.ideas.find? (fun i => i.id = ideaId) with
  | none => s
  | some idea =>
    if idea.status = .done then s
    else
      let record : DoneRecord :=
        { id := ideaId, movedAt := now, workspaceId := some idea.workspace_id,
          snapshot :=
            { title := idea.title, description := idea.description,
              hashtags := idea.hashtags, script := idea.script,
              shotlist := idea.shotlist, thumbnail := idea.thumbnail,
              binId := jsOrUndef idea.bin_id, text := some idea.text } }
      { s with
        ideas := s.ideas.map (fun i =>
          if i.id = ideaId then { i with status := .done, updatedAt := some now } else i),
        done := alSet s.done ideaId record }

/-- `unpostIdea` (lines 860-878): for any existing idea (whatever its
status) set the status to `working`, stamp `updatedAt`, and remove the
`done` entry; a missing id is a no-op. -/
def unpostIdea (now : Int) (ideaId : String) (s : AppData) : AppData :=
  match s.ideas.find? (fun i => i.id = ideaId) with
  | none => s
  | some _ =>
    { s with
      ideas := s.ideas.map (fun i =>
        if i.id = ideaId then { i with status := .working, updatedAt := some now } else i),
      done := s.done.filter (fun kv => kv.1 ≠ ideaId) }

def gridAssign (cellId : String) (ideaId : Option String) (s : AppData) : AppData :=
  let ws := s.currentWorkspaceId
  match alGet s.gridsByWorkspace ws with
  | none => { s with gridsByWorkspace := alSet s.gridsByWorkspace ws initGridT }
  | some grid =>
    match alGet grid.cells cellId with
    | none => s
    | some cell =>
      let nextId := jsOrUndef ideaId
      let grid2 := { grid with cells := alSet grid.cells cellId { cell with ideaId := nextId } }
      { s with gridsByWorkspace := alSet s.gridsByWorkspace ws grid2 }

def gridMoveWithin (fromId toId : String) (s : AppData) : AppData :=
  let ws := s.currentWorkspaceId
  match alGet s.gridsByWorkspace ws with
  | none => s
  | some grid =>
    match alGet grid.cells fromId, alGet grid.cells toId with
    | some cellA, some cellB =>
      let nextCells :=
        if ¬strTruthy cellB.ideaId then
          alSet (alSet grid.cells toId { cellB with ideaId := cellA.ideaId })
            fromId { cellA with ideaId := none }
        else
          alSet (alSet grid.cells toId { cellB with ideaId := cellA.ideaId })
            fromId { cellA with ideaId := cellB.ideaId }
      let grid2 := { grid with cells := nextCells }
      { s with gridsByWorkspace := alSet s.gridsByWorkspace ws grid2 }
    | _, _ => s

def gridClear (cellId : String) (s : AppData) : AppData :=
  let ws := s.currentWorkspaceId
  match alGet s.gridsByWorkspace ws with
  | none => s
  | some grid =>
    match alGet grid.cells cellId with
    | none => s
    | some cell =>
      let grid2 := { grid with cells := alSet grid.cells cellId { cell with ideaId := none } }
      { s with gridsByWorkspace := alSet s.gridsByWorkspace ws grid2 }

def gridResetTo1x3 (s : AppData) : AppData :=
  { s with gridsByWorkspace := alSet s.gridsByWorkspace s.currentWorkspaceId initGridT }

def addGridRows (count : Nat) (s : AppData) : AppData :=
  let ws := s.currentWorkspaceId
  let grid := (alGet s.gridsByWorkspace ws).getD initGridT
  let newRows := grid.rows + count
  let added := (List.range count).flatMap (fun k =>
    (List.range 3).map (fun c => (grid.rows + k, c)))
  let cells := added.foldl (fun cs rc =>
    let cid := "r" ++ toString rc.1 ++ "-c" ++ toString rc.2
    alSet cs cid { id := cid, row := rc.1, col := rc.2 }) grid.cells
  let grid2 := { grid with rows := newRows, cells := cells }
  { s with gridsByWorkspace := alSet s.gridsByWorkspace ws grid2 }

def clearAll (_s : AppData) : AppData := defaultStateT

/-! ## The public action alphabet (the `actions` object, lines 1006-1030)

`importState` is the one public action that is not a typed-world data
transform (it routes arbitrary snapshots through `migrate`); it is treated
separately via `importStateE`. -/

inductive Action where
  | setWorkspace (id : String)
  | addBin (now : Int) (name : String)
  | updateBin (id : String) (p : BinPatch)
  | deleteBin (id : String)
  | addIdea (now : Int) (bin_id : Option String) (text : String)
  | updateIdea (id : String) (p : IdeaPatch)
  | deleteIdea (id : String)
  | setIdeaStatus (now : Int) (id : String) (status : IdeaStatus)
  | updateIdeaFields (now : Int) (id : String) (p : IdeaPatch)
  | moveIdeaToBin (now : Int) (ideaId : String) (binId : Option String)
  | updateBinHashtagDefaults (now : Int) (binId : String) (p : HashtagsPatch)
  | promoteIdeaToPost (now : Int) (idea_id : String)
  | updatePost (id : String) (p : PostPatch)
  | deletePost (id : String)
  | markIdeaPosted (now : Int) (ideaId : String)
  | unpostIdea (now : Int) (ideaId : String)
  | gridAssign (cellId : String) (ideaId : Option String)
  | gridMoveWithin (fromId toId : String)
  | gridClear (cellId : String)
  | gridResetTo1x3
  | addGridRows (count : Nat)
  | clearAll
deriving DecidableEq, Repr

def Action.apply : Action → AppData → AppData
  | .setWorkspace id, s => ContentPlanner.setWorkspace id s
  | .addBin now name, s => ContentPlanner.addBin now name s
  | .updateBin id p, s => ContentPlanner.updateBin id p s
  | .deleteBin id, s => ContentPlanner.deleteBin id s
  | .addIdea now b t, s => ContentPlanner.addIdea now b t s
  | .updateIdea id p, s => ContentPlanner.updateIdea id p s
  | .deleteIdea id, s => ContentPlanner.deleteIdea id s
  | .setIdeaStatus now id st, s => ContentPlanner.setIdeaStatus now id st s
  | .updateIdeaFields now id p, s => ContentPlanner.updateIdeaFields now id p s
  | .moveIdeaToBin now i b, s => ContentPlanner.moveIdeaToBin now i b s
  | .updateBinHashtagDefaults now b p, s => ContentPlanner.updateBinHashtagDefaults now b p s
  | .promoteIdeaToPost now i, s => ContentPlanner.promoteIdeaToPost now i s
  | .updatePost id p, s => ContentPlanner.updatePost id p s
  | .deletePost id, s => ContentPlanner.deletePost id s
  | .markIdeaPosted now i, s => ContentPlanner.markIdeaPosted now i s
  | .unpostIdea now i, s => ContentPlanner.unpostIdea now i s
  | .gridAssign c i, s => ContentPlanner.gridAssign c i s
  | .gridMoveWithin f t, s => ContentPlanner.gridMoveWithin f t s
  | .gridClear c, s => ContentPlanner.gridClear c s
  | .gridResetTo1x3, s => ContentPlanner.gridResetTo1x3 s
  | .addGridRows n, s => ContentPlanner.addGridRows n s
  | .clearAll, s => ContentPlanner.clearAll s

/-- Run a sequence of public actions from a starting state. -/
def runSeq (acts : List Action) (s : AppData) : AppData :=
  acts.foldl (fun st a => a.apply st) s

/-- The status/done consistency invariant (spec section 8, item 3):
an idea has status `done` exactly when a done record is stored under its
id. -/
def doneConsistent (s : AppData) : Prop :=
  ∀ i ∈ s.ideas, (i.status = .done ↔ (alGet s.done i.id).isSome = true)

instance (s : AppData) : Decidable (doneConsistent s) := by
  unfold doneConsistent; infer_instance

/-- The discipline under which the invariant is actually preserved:
status is never pushed to or away from `done` except through
`markIdeaPosted`/`unpostIdea`, patches do not rewrite ids or statuses,
and a freshly generated idea id has no orphaned done record. -/
def okA : Action → AppData → Bool
  | .setIdeaStatus _ id status, s =>
      status ≠ IdeaStatus.done &&
      s.ideas.all (fun i => i.id ≠ id || i.status ≠ IdeaStatus.done)
  | .updateIdea _ p, _ => p.status.isNone && p.id.isNone
  | .updateIdeaFields _ _ p, _ => p.status.isNone && p.id.isNone
  | .addIdea now _ _, s => (alGet s.done ("idea-" ++ toString now)).isNone
  | _, _ => true

/-- Every action of the sequence satisfies `okA` at the state where it
runs. -/
def okChain : List Action → AppData → Prop
  | [], _ => True
  | a :: rest, s => okA a s = true ∧ okChain rest (a.apply s)

instance instDecOkChain : ∀ (acts : List Action) (s : AppData), Decidable (okChain acts s)
  | [], _ => .isTrue trivial
  | a :: rest, s =>
      have : Decidable (okChain rest (a.apply s)) := instDecOkChain rest (a.apply s)
      And.decidable

/-! ## Association-list lemmas -/

theorem alGet_alSet_self {α : Type} (l : List (String × α)) (k : String) (v : α) :
    alGet (alSet l k v) k = some v := by
  induction l with
  | nil => simp [alSet, alGet]
  | cons h t ih =>
    obtain ⟨k', v'⟩ := h
    by_cases hk : k' = k
    · simp [alSet, hk, alGet]
    · simp [alSet, hk, alGet, ih]

theorem alGet_alSet_ne {α : Type} (l : List (String × α)) (k j : String) (v : α)
    (h : j ≠ k) : alGet (alSet l k v) j = alGet l j := by
  have hkj : ¬k = j := fun e => h e.symm
  induction l with
  | nil => simp [alSet, alGet, hkj]
  | cons hd t ih =>
    obtain ⟨k', v'⟩ := hd
    by_cases hk : k' = k
    · subst hk
      simp [alSet, alGet, hkj]
    · simp only [alSet, if_neg hk, alGet]
      by_cases hj : k' = j
      · simp [hj]
      · simp [hj, ih]

theorem alGet_filterOut_self {α : Type} (l : List (String × α)) (k : String) :
    alGet (l.filter (fun kv => kv.1 ≠ k)) k = none := by
  induction l with
  | nil => rfl
  | cons hd t ih =>
    obtain ⟨k', v'⟩ := hd
    by_cases hk : k' = k
    · rw [List.filter_cons, if_neg (by simp [hk])]
      exact ih
    · rw [List.filter_cons, if_pos (by simpa using hk)]
      have huf : alGet ((k', v') :: t.filter (fun kv => kv.1 ≠ k)) k =
          alGet (t.filter (fun kv => kv.1 ≠ k)) k := by
        simp [alGet, hk]
      rw [huf]
      exact ih

theorem alGet_filterOut_ne {α : Type} (l : List (String × α)) (k j : String)
    (h : j ≠ k) : alGet (l.filter (fun kv => kv.1 ≠ k)) j = alGet l j := by
  induction l with
  | nil => rfl
  | cons hd t ih =>
    obtain ⟨k', v'⟩ := hd
    by_cases hk : k' = k
    · subst hk
      rw [List.filter_cons, if_neg (by simp)]
      have hne : ¬k' = j := fun e => h e.symm
      have huf : alGet ((k', v') :: t) j = alGet t j := by
        simp [alGet, hne]
      rw [huf]
      exact ih
    · rw [List.filter_cons, if_pos (by simpa using hk)]
      by_cases hj : k' = j
      · simp [alGet, hj]
      · have huf : ∀ rest : List (String × α),
            alGet ((k', v') :: rest) j = alGet rest j := by
          intro rest
          simp [alGet, hj]
        rw [huf, huf]
        exact ih

/-! ## Preservation of the status/done invariant -/

theorem doneConsistent_congr {s t : AppData} (hi : t.ideas = s.ideas)
    (hd : t.done = s.done) (h : doneConsistent s) : doneConsistent t := by
  intro i him
  rw [hi] at him
  rw [hd]
  exact h i him

theorem doneConsistent_map {s t : AppData} {f : Idea → Idea}
    (hi : t.ideas = s.ideas.map f) (hd : t.done = s.done)
    (hf : ∀ i, (f i).id = i.id ∧ (f i).status = i.status)
    (h : doneConsistent s) : doneConsistent t := by
  intro i him
  rw [hi] at him
  obtain ⟨j, hj, rfl⟩ := List.mem_map.mp him
  rw [hd, (hf j).1, (hf j).2]
  exact h j hj

theorem doneConsistent_filter {s t : AppData} {pred : Idea → Bool}
    (hi : t.ideas = s.ideas.filter pred) (hd : t.done = s.done)
    (h : doneConsistent s) : doneConsistent t := by
  intro i him
  rw [hi] at him
  rw [hd]
  exact h i (List.mem_of_mem_filter him)

theorem okA_preserves (a : Action) (s : AppData) (hok : okA a s = true)
    (h : doneConsistent s) : doneConsistent (a.apply s) := by
  cases a with
  | setWorkspace id =>
    exact doneConsistent_congr rfl rfl h
  | addBin now name =>
    exact doneConsistent_congr rfl rfl h
  | updateBin id p =>
    exact doneConsistent_congr rfl rfl h
  | deleteBin id =>
    refine doneConsistent_map rfl rfl (fun i => ?_) h
    by_cases hb : i.bin_id = some id <;> simp [hb]
  | addIdea now b t =>
    intro i him
    simp only [Action.apply, ContentPlanner.addIdea, List.mem_append,
      List.mem_singleton] at him
    rcases him with him | rfl
    · exact h i him
    · simp only [okA, Option.isNone_iff_eq_none] at hok
      simp [Action.apply, ContentPlanner.addIdea, hok]
  | updateIdea id p =>
    simp only [okA, Bool.and_eq_true, Option.isNone_iff_eq_none] at hok
    refine doneConsistent_map rfl rfl (fun i => ?_) h
    by_cases hi : i.id = id <;> simp [hi, applyIdeaPatch, hok.1, hok.2]
  | deleteIdea id =>
    exact doneConsistent_filter rfl rfl h
  | setIdeaStatus now id status =>
    simp only [okA, Bool.and_eq_true, decide_eq_true_eq, List.all_eq_true] at hok
    simp only [Action.apply, ContentPlanner.setIdeaStatus]
    cases hfind : s.ideas.find? (fun i => i.id = id) with
    | none => exact h
    | some idea =>
      intro i him
      simp only [List.mem_map] at him
      obtain ⟨j, hj, rfl⟩ := him
      by_cases hjid : j.id = id
      · have hnd : status ≠ IdeaStatus.done := hok.1
        have hjse := hok.2 j hj
        simp only [Bool.or_eq_true, decide_eq_true_eq] at hjse
        have hjnd : j.status ≠ IdeaStatus.done := by
          rcases hjse with hc | hc
          · exact absurd hjid hc
          · exact hc
        have hget : (alGet s.done j.id).isSome = false := by
          cases hg : (alGet s.done j.id).isSome
          · rfl
          · exact absurd ((h j hj).mpr hg) hjnd
        simp [hjid, hnd, hget, hjid ▸ hget]
      · simp only [hjid, if_false]
        exact h j hj
  | updateIdeaFields now id p =>
    simp only [okA, Bool.and_eq_true, Option.isNone_iff_eq_none] at hok
    refine doneConsistent_map rfl rfl (fun i => ?_) h
    by_cases hi : i.id = id <;> simp [hi, applyIdeaPatch, hok.1, hok.2]
  | moveIdeaToBin now ideaId binId =>
    refine doneConsistent_map rfl rfl (fun i => ?_) h
    by_cases hi : i.id = ideaId <;> simp [hi]
  | updateBinHashtagDefaults now binId p =>
    exact doneConsistent_congr rfl rfl h
  | promoteIdeaToPost now idea_id =>
    simp only [Action.apply, ContentPlanner.promoteIdeaToPost]
    cases s.ideas.find? (fun i => i.id = idea_id) with
    | none => exact h
    | some idea => exact doneConsistent_congr rfl rfl h
  | updatePost id p =>
    exact doneConsistent_congr rfl rfl h
  | deletePost id =>
    exact doneConsistent_congr rfl rfl h
  | markIdeaPosted now ideaId =>
    simp only [Action.apply, ContentPlanner.markIdeaPosted]
    cases hfind : s.ideas.find? (fun i => i.id = ideaId) with
    | none => exact h
    | some idea =>
      by_cases hdone : idea.status = IdeaStatus.done
      · simp only [hdone, if_true]
        exact h
      · simp only [hdone, if_false]
        intro i him
        simp only [List.mem_map] at him
        obtain ⟨j, hj, rfl⟩ := him
        by_cases hjid : j.id = ideaId
        · simp [hjid, alGet_alSet_self]
        · simp only [hjid, if_false]
          rw [show (alGet (alSet s.done ideaId _) j.id) = alGet s.done j.id from
            alGet_alSet_ne _ _ _ _ hjid]
          exact h j hj
  | unpostIdea now ideaId =>
    simp only [Action.apply, ContentPlanner.unpostIdea]
    cases hfind : s.ideas.find? (fun i => i.id = ideaId) with
    | none => exact h
    | some idea =>
      intro i him
      simp only [List.mem_map] at him
      obtain ⟨j, hj, rfl⟩ := him
      by_cases hjid : j.id = ideaId
      · rw [if_pos hjid]
        have hid : ({ j with status := IdeaStatus.working, updatedAt := some now } : Idea).id
            = ideaId := hjid
        rw [hid, alGet_filterOut_self]
        simp
      · rw [if_neg hjid, alGet_filterOut_ne _ _ _ hjid]
        exact h j hj
  | gridAssign c i =>
    simp only [Action.apply, ContentPlanner.gridAssign]
    cases alGet s.gridsByWorkspace s.currentWorkspaceId with
    | none => exact doneConsistent_congr rfl rfl h
    | some grid =>
      try dsimp only
      cases alGet grid.cells c with
      | none => exact h
      | some cell => exact doneConsistent_congr rfl rfl h
  | gridMoveWithin f t =>
    simp only [Action.apply, ContentPlanner.gridMoveWithin]
    cases alGet s.gridsByWorkspace s.currentWorkspaceId with
    | none => exact h
    | some grid =>
      try dsimp only
      cases alGet grid.cells f with
      | none =>
        try dsimp only
        cases alGet grid.cells t with
        | none => exact h
        | some cellB => exact h
      | some cellA =>
        try dsimp only
        cases alGet grid.cells t with
        | none => exact h
        | some cellB => exact doneConsistent_congr rfl rfl h
  | gridClear c =>
    simp only [Action.apply, ContentPlanner.gridClear]
    cases alGet s.gridsByWorkspace s.currentWorkspaceId with
    | none => exact h
    | some grid =>
      try dsimp only
      cases alGet grid.cells c with
      | none => exact h
      | some cell => exact doneConsistent_congr rfl rfl h
  | gridResetTo1x3 =>
    exact doneConsistent_congr rfl rfl h
  | addGridRows n =>
    exact doneConsistent_congr rfl rfl h
  | clearAll =>
    intro i him
    simp [Action.apply, ContentPlanner.clearAll, defaultStateT] at him

theorem runSeq_preserves : ∀ (acts : List Action) (s : AppData),
    okChain acts s → doneConsistent s → doneConsistent (runSeq acts s)
  | [], _, _, h => h
  | a :: rest, s, hok, h =>
      runSeq_preserves rest (a.apply s) hok.2 (okA_preserves a s hok.1 h)

theorem doneConsistent_default : doneConsistent defaultStateT := by
  intro i him
  simp [defaultStateT] at him

/-! ## Workspace-key normalization (src/unnamed/part_010, lines 39-41)

`normalizeWorkspaceKey(workspace) = workspace.trim().toLowerCase()`,
embedded over character lists. Whitespace is modelled by the usual ASCII
whitespace characters and lowercasing by the ASCII letter table (the
workspace names the adapter sees are ASCII display names). -/

def isJsSpace (c : Char) : Bool :=
  c = ' ' ∨ c = '\t' ∨ c = '\n' ∨ c = '\r'

/-- The uppercase-to-lowercase letter table. -/
def upperLowerTable : List (Char × Char) :=
  [('A', 'a'), ('B', 'b'), ('C', 'c'), ('D', 'd'), ('E', 'e'), ('F', 'f'),
   ('G', 'g'), ('H', 'h'), ('I', 'i'), ('J', 'j'), ('K', 'k'), ('L', 'l'),
   ('M', 'm'), ('N', 'n'), ('O', 'o'), ('P', 'p'), ('Q', 'q'), ('R', 'r'),
   ('S', 's'), ('T', 't'), ('U', 'u'), ('V', 'v'), ('W', 'w'), ('X', 'x'),
   ('Y', 'y'), ('Z', 'z')]

/-- `toLowerCase` on one character. -/
def jsLowerChar (c : Char) : Char :=
  ((upperLowerTable.find? (fun p => p.1 = c)).map Prod.snd).getD c

/-- `trim()`: drop whitespace from both ends. -/
def jsTrim (l : List Char) : List Char :=
  ((l.dropWhile isJsSpace).reverse.dropWhile isJsSpace).reverse

/-- `normalizeWorkspaceKey` — `trim().toLowerCase()` of the workspace
identifier, the row key of every remote operation. -/
def normalizeWorkspaceKey (s : String) : String :=
  String.mk ((jsTrim s.data).map jsLowerChar)

/-- Two characters that differ only by letter case. -/
def caseEq (a b : Char) : Prop := jsLowerChar a = jsLowerChar b

/-! ## The no-op equality guard of `setState` (part_003, lines 331-346 and
513-547)

`setState` merges an update over the current data (`partial.f ?? state.f`
per field), rebuilds the eight-field current and next data projections, and
returns without committing, notifying or scheduling a save when they are
`shallowEqual`. Field values are abstracted to a type `V` whose equality
models JS `===`: identity for objects and arrays, value equality for
primitives — two structurally equal but distinct objects get distinct
abstract values. -/

structure DataVals (V : Type) where
  version : V
  workspaces : V
  bins : V
  ideas : V
  posts : V
  currentWorkspaceId : V
  done : V
  gridsByWorkspace : V
deriving DecidableEq, Repr

/-- A `setState` argument: per field, either absent or a provided value
(a provided `undefined`/`null` behaves as absent under `??`). -/
structure DataUpdate (V : Type) where
  version : Option V := none
  workspaces : Option V := none
  bins : Option V := none
  ideas : Option V := none
  posts : Option V := none
  currentWorkspaceId : Option V := none
  done : Option V := none
  gridsByWorkspace : Option V := none
deriving DecidableEq, Repr

/-- The merged next data (`partial.version ?? state.version`, ...). -/
def mergeData {V : Type} (p : DataUpdate V) (s : DataVals V) : DataVals V :=
  { version := p.version.getD s.version,
    workspaces := p.workspaces.getD s.workspaces,
    bins := p.bins.getD s.bins,
    ideas := p.ideas.getD s.ideas,
    posts := p.posts.getD s.posts,
    currentWorkspaceId := p.currentWorkspaceId.getD s.currentWorkspaceId,
    done := p.done.getD s.done,
    gridsByWorkspace := p.gridsByWorkspace.getD s.gridsByWorkspace }

/-- The key list of the two data-projection literals. -/
def dataKeys : List String :=
  ["version", "workspaces", "bins", "ideas", "posts", "currentWorkspaceId",
   "done", "gridsByWorkspace"]

def fieldOf {V : Type} (s : DataVals V) : String → Option V
  | "version" => some s.version
  | "workspaces" => some s.workspaces
  | "bins" => some s.bins
  | "ideas" => some s.ideas
  | "posts" => some s.posts
  | "currentWorkspaceId" => some s.currentWorkspaceId
  | "done" => some s.done
  | "gridsByWorkspace" => some s.gridsByWorkspace
  | _ => none

/-- `shallowEqual(currentData, nextData)` specialized to two full data
projections: both key lists are `dataKeys`, so the key comparison reduces
to the length check and the per-key `===` loop. -/
def shallowEqualData {V : Type} [DecidableEq V] (a b : DataVals V) : Bool :=
  decide (dataKeys.length = dataKeys.length) &&
  dataKeys.all (fun k => fieldOf a k == fieldOf b k)

/-- `setState(partial)`: the returned flag records whether `emitChange`
ran, i.e. whether subscribers were notified and a persistence write was
scheduled. -/
def setStateData {V : Type} [DecidableEq V] (p : DataUpdate V) (s : DataVals V) :
    DataVals V × Bool :=
  let next := mergeData p s
  if shallowEqualData s next then (s, false) else (next, true)

/-! ## Sync adapter: push outcome and pull polling (src/unnamed/part_010)

`backupToCloud` (lines 116-148) with the upsert outcome as a parameter;
`performPull` (359-417) in its auto-pull form (`askConfirm = false`,
reached from the poll only when the adapter is clean); `pollRemoteUpdates`
(295-333). Timestamps are ISO-8601 strings compared with `>`; since string
order on that format is chronological order they are modelled as `Int`,
with a missing last-known value comparing like the empty string (older
than everything). The store's data-only projection is carried as a
`RawValue` because `importState` routes through `migrate`. -/

structure SyncAdapterState where
  isDirty : Bool
  lastLocalSaveAt : Option Int := none
  lastRemoteUpdatedAt : Option Int := none
  lastStateHash : Option RawValue := none
deriving DecidableEq, Repr

inductive UpsertOutcome where
  | ok
  | errorReturned
  | threw
deriving DecidableEq, Repr

/-- `backupToCloud` after the upsert resolves: on success clear `dirty`
and stamp both timestamps with the current time; a returned error or a
thrown exception is caught and logged, leaving the adapter state
untouched — the function never lets an exception escape (it is total). -/
def backupToCloudStep (now : Int) (res : UpsertOutcome) (a : SyncAdapterState) :
    SyncAdapterState :=
  match res with
  | .ok => { a with isDirty := false, lastLocalSaveAt := some now,
                    lastRemoteUpdatedAt := some now }
  | .errorReturned => a
  | .threw => a

structure RemoteRow where
  updatedAt : Int
  payload : RawValue
deriving DecidableEq, Repr

/-- `remoteUpdatedAt > (lastRemoteUpdatedAt || '')`. -/
def tsNewer (remote : Int) (last : Option Int) : Bool :=
  match last with
  | none => true
  | some l => remote > l

/-- `performPull` in the auto-pull path: fetch the full row; if it has a
payload, import it through `importState` (hence `migrate`), then clear
`dirty`, record the row's `updated_at` and refresh the state hash. A
missing row, an empty payload, or a throw inside the import leaves the
store and the tracking state unchanged (the surrounding `try` absorbs
it). -/
def performPullStep (now : Int) (remote : Option RemoteRow) (a : SyncAdapterState)
    (d : RawValue) : SyncAdapterState × RawValue :=
  match remote with
  | none => (a, d)
  | some row =>
    if row.payload.truthy then
      match importStateE now row.payload with
      | .ok newData =>
          ({ a with isDirty := false, lastRemoteUpdatedAt := some row.updatedAt,
                    lastStateHash := some newData }, newData)
      | .error _ => (a, d)
    else (a, d)

/-- One tick of `pollRemoteUpdates`: guarded by auto-sync and tab
visibility; when the remote row's timestamp is newer than the last known
one, record it, then auto-pull only if the adapter is clean — a dirty
adapter skips the pull entirely. -/
def pollStep (now : Int) (visible autoSync : Bool) (remote : Option RemoteRow)
    (a : SyncAdapterState) (d : RawValue) : SyncAdapterState × RawValue :=
  if ¬autoSync ∨ ¬visible then (a, d)
  else
    match remote with
    | none => (a, d)
    | some row =>
      if tsNewer row.updatedAt a.lastRemoteUpdatedAt then
        let a1 := { a with lastRemoteUpdatedAt := some row.updatedAt }
        if ¬a.isDirty then performPullStep now remote a1 d
        else (a1, d)
      else (a, d)

/-! ## Sync adapter: debounce/ceiling push scheduling (part_010, lines
19-34 and 169-262)

The timer state machine: `scheduleBackup` (169-206), `clearTimers`
(211-224), `performBackup` (229-247) and `startWatchdogTimer` (252-262),
with timers as due times and an event executor that fires the earliest
pending event. The upsert is modelled as succeeding atomically at the
push (`performBackup` is followed by the success callback before the next
event); failure handling is claim-level separate (`backupToCloudStep`).
`pushes` records the times at which `performBackup` actually flushed. -/

def DEBOUNCE_MS : Int := 2500
def MAX_WAIT_MS : Int := 10000
def WATCHDOG_INTERVAL_MS : Int := 60000

structure BackupSchedState where
  isDirty : Bool
  debounceDue : Option Int
  maxWaitDue : Option Int
  watchdogDue : Option Int
  lastFlushTime : Int
  pushes : List Int
deriving DecidableEq, Repr

def clearSchedTimers (s : BackupSchedState) : BackupSchedState :=
  { s with debounceDue := none, maxWaitDue := none, watchdogDue := none }

/-- `performBackup`: skip when clean; otherwise stamp `lastFlushTime`,
cancel every timer, push, and re-arm the watchdog. -/
def performBackupStep (now : Int) (s : BackupSchedState) : BackupSchedState :=
  if ¬s.isDirty then s
  else
    let s1 := clearSchedTimers { s with lastFlushTime := now }
    { s1 with pushes := s1.pushes ++ [now], isDirty := false,
              watchdogDue := some (now + WATCHDOG_INTERVAL_MS) }

/-- `scheduleBackup` on a store change at time `now`. -/
def scheduleBackupStep (now : Int) (s : BackupSchedState) : BackupSchedState :=
  let s := { s with isDirty := true }
  if now - s.lastFlushTime ≥ MAX_WAIT_MS then
    performBackupStep now (clearSchedTimers s)
  else
    let s := { s with debounceDue := some (now + DEBOUNCE_MS) }
    if s.maxWaitDue.isNone then
      { s with maxWaitDue := some (now + (MAX_WAIT_MS - (now - s.lastFlushTime))) }
    else s

def fireDebounce (t : Int) (s : BackupSchedState) : BackupSchedState :=
  performBackupStep t { s with debounceDue := none }

def fireMaxWait (t : Int) (s : BackupSchedState) : BackupSchedState :=
  performBackupStep t { s with maxWaitDue := none, debounceDue := none }

def fireWatchdog (t : Int) (s : BackupSchedState) : BackupSchedState :=
  let s := { s with watchdogDue := none }
  if s.isDirty then performBackupStep t s else s

inductive TimerKind where
  | debounce
  | maxWait
  | watchdog
deriving DecidableEq, Repr

/-- Keep the earlier of an already-picked timer and a candidate (the
already-picked one wins ties). -/
def minDue (a : Option (TimerKind × Int)) (k : TimerKind) (t : Option Int) :
    Option (TimerKind × Int) :=
  match t with
  | none => a
  | some d =>
    match a with
    | none => some (k, d)
    | some b => if d < b.2 then some (k, d) else some b

/-- The earliest armed timer (fixed order breaks ties; a tie between the
debounce and the ceiling is outcome-irrelevant because either fire runs
the same `performBackup` and cancels the other). -/
def pickTimer (s : BackupSchedState) : Option (TimerKind × Int) :=
  minDue (minDue (minDue none TimerKind.debounce s.debounceDue)
    TimerKind.maxWait s.maxWaitDue) TimerKind.watchdog s.watchdogDue

def fireTimer : TimerKind → Int → BackupSchedState → BackupSchedState
  | .debounce, t, s => fireDebounce t s
  | .maxWait, t, s => fireMaxWait t s
  | .watchdog, t, s => fireWatchdog t s

/-- One event-loop step: fire the earliest due timer, unless the next
mutation is strictly earlier, in which case that mutation's
`scheduleBackup` runs. -/
def schedStep (s : BackupSchedState) (muts : List Int) :
    Option (BackupSchedState × List Int) :=
  match pickTimer s, muts with
  | none, [] => none
  | some (k, t), [] => some (fireTimer k t s, [])
  | none, m :: rest => some (scheduleBackupStep m s, rest)
  | some (k, t), m :: rest =>
      if t ≤ m then some (fireTimer k t s, m :: rest)
      else some (scheduleBackupStep m s, rest)

def schedRun : Nat → BackupSchedState → List Int → BackupSchedState
  | 0, s, _ => s
  | fuel + 1, s, muts =>
    match schedStep s muts with
    | none => s
    | some (s', muts') => schedRun fuel s' muts'

/-- The adapter state right after a successful push at time `t0`: clean,
no debounce or ceiling pending, watchdog re-armed. -/
def freshPushState (t0 : Int) : BackupSchedState :=
  { isDirty := false, debounceDue := none, maxWaitDue := none,
    watchdogDue := some (t0 + WATCHDOG_INTERVAL_MS), lastFlushTime := t0,
    pushes := [] }

/-! ## Concrete inputs for the per-claim evaluations -/

/-- A 1x3 grid whose first cell holds an idea assignment. -/
def gridWithAssignment : RawValue :=
  .obj [("columns", .num 3), ("rows", .num 1),
        ("cells", .obj
          [("r0-c0", .obj [("id", .str "r0-c0"), ("row", .num 0), ("col", .num 0),
                           ("ideaId", .str "idea-1")]),
           ("r0-c1", initGridCellRaw 1), ("r0-c2", initGridCellRaw 2)])]

/-- A valid exported data projection: the default state with a populated
grid for `ws-1` (one cell assigned) and the usual empty grid for `ws-2`. -/
def c3State : RawValue :=
  .obj (alSet (spreadFields defaultStateRaw) "gridsByWorkspace"
    (.obj [("ws-1", gridWithAssignment), ("ws-2", initGridRaw)]))

/-- A state holding one working idea whose `bin_id` is the empty string
(a well-typed `string` value). -/
def c6State : AppData :=
  { defaultStateT with ideas :=
      [{ id := "i1", workspace_id := "ws-1", bin_id := some "", text := "note",
         status := .working, createdAt := 0 }] }

/-- A state holding one brainstorming idea together with an orphaned done
record under its id. -/
def c10State : AppData :=
  { defaultStateT with
    ideas := [{ id := "i1", workspace_id := "ws-1", bin_id := none, text := "note",
                status := .brainstorming, createdAt := 0 }],
    done := [("i1", { id := "i1", movedAt := 1, workspaceId := some "ws-1",
                      snapshot := { text := some "note" } })] }

end ContentPlanner

namespace ContentPlanner

/-- The `DoneRecord` literal `markIdeaPosted` builds (part_003 lines
830-844). -/
def mkDoneRecord (now : Int) (id : String) (idea : Idea) : DoneRecord :=
  { id := id, movedAt := now, workspaceId := some idea.workspace_id,
    snapshot := { title := idea.title, description := idea.description,
                  hashtags := idea.hashtags, script := idea.script,
                  shotlist := idea.shotlist, thumbnail := idea.thumbnail,
                  binId := jsOrUndef idea.bin_id, text := some idea.text } }

/-! # Claim theorems -/

/-- C2: the claim fails on the code. `migrate(null)` returns the seed
default state, whose seed bins carry no `hashtagDefaults`, `ideaIds` or
`createdAt` and whose `gridsByWorkspace` covers both seed workspaces;
running `migrate` again adds the three bin fields and rebuilds
`gridsByWorkspace` with only the current workspace's fresh grid, so
`migrate(migrate(null))` differs from `migrate(null)`. Moreover `migrate`
is not total: an input whose `bins` array contains `null` makes the bin
normalization throw a `TypeError` reading `hashtagDefaults` of `null`. -/
theorem c2_migrate_idempotence_fails :
    migrateE 0 RawValue.null = Except.ok defaultStateRaw ∧
    (Except.ok defaultStateRaw).bind (migrateE 1) ≠ Except.ok defaultStateRaw ∧
    migrateE 0 (RawValue.obj [("bins", RawValue.arr [RawValue.null])]) =
      Except.error () := by
  refine ⟨by decide, by decide, by decide⟩

/-- C3: the round trip loses grid data. Importing the exported projection
of a state whose `ws-1` grid has an assigned cell yields a state whose
`gridsByWorkspace` holds only a fresh empty 1x3 grid for `ws-1`: the
assignment is gone and `ws-2`'s grid is dropped, because the `migrate`
literal (part_003 lines 208-216) omits `gridsByWorkspace` and the check at
line 222 therefore always rebuilds it from scratch. -/
theorem c3_round_trip_loses_grids :
    (importStateE 0 c3State).bind (fun out => getProp out "gridsByWorkspace") =
      Except.ok (RawValue.obj [("ws-1", initGridRaw)]) ∧
    getProp c3State "gridsByWorkspace" =
      Except.ok (RawValue.obj [("ws-1", gridWithAssignment), ("ws-2", initGridRaw)]) := by
  refine ⟨by decide, by decide⟩

/-- C8: push failure semantics. A push attempt whose upsert returns an
error or throws leaves the whole adapter state untouched — in particular
the dirty flag stays set and the last-local-save and last-known-remote
timestamps are unchanged — and (the step being a total function) no
exception escapes; and the dirty flag ends up cleared only when it was
already clear or the upsert succeeded. -/
theorem c8_push_failure_semantics :
    (∀ (now : Int) (res : UpsertOutcome) (a : SyncAdapterState),
        res ≠ UpsertOutcome.ok → backupToCloudStep now res a = a) ∧
    (∀ (now : Int) (res : UpsertOutcome) (a : SyncAdapterState),
        (backupToCloudStep now res a).isDirty = false →
        a.isDirty = false ∨ res = UpsertOutcome.ok) := by
  constructor
  · intro now res a hres
    cases res with
    | ok => exact absurd rfl hres
    | errorReturned => rfl
    | threw => rfl
  · intro now res a hclean
    cases res with
    | ok => exact Or.inr rfl
    | errorReturned => exact Or.inl hclean
    | threw => exact Or.inl hclean

/-- C8 witness: a failing upsert at a dirty adapter leaves it dirty with
both timestamps unchanged. -/
theorem c8_push_failure_semantics_witness :
    backupToCloudStep 5 UpsertOutcome.errorReturned
        { isDirty := true, lastLocalSaveAt := some 1, lastRemoteUpdatedAt := some 2,
          lastStateHash := none } =
      { isDirty := true, lastLocalSaveAt := some 1, lastRemoteUpdatedAt := some 2,
        lastStateHash := none } :=
  c8_push_failure_semantics.1 5 UpsertOutcome.errorReturned _ (by decide)

theorem shallowEqualData_refl {V : Type} [DecidableEq V] (s : DataVals V) :
    shallowEqualData s s = true := by
  simp [shallowEqualData, dataKeys, fieldOf]

/-- C9: the no-op equality guard of `setState`. When the merged data
projection equals the current one field-for-field under the `===` model,
`setState` returns the state unchanged, does not notify subscribers and
does not schedule a persistence write (the emitted flag is `false`). -/
theorem c9_setstate_noop_guard {V : Type} [DecidableEq V] (p : DataUpdate V)
    (s : DataVals V) (h : mergeData p s = s) : setStateData p s = (s, false) := by
  unfold setStateData
  rw [h]
  simp [shallowEqualData_refl]

/-- C9 witness at concrete data: an update resupplying the same version
value merges to the identical projection and commits nothing. -/
theorem c9_setstate_noop_guard_witness :
    setStateData (V := Nat) { version := some 1 }
        { version := 1, workspaces := 2, bins := 3, ideas := 4, posts := 5,
          currentWorkspaceId := 6, done := 7, gridsByWorkspace := 8 } =
      ({ version := 1, workspaces := 2, bins := 3, ideas := 4, posts := 5,
         currentWorkspaceId := 6, done := 7, gridsByWorkspace := 8 }, false) :=
  c9_setstate_noop_guard _ _ (by decide)

/-- C1: the dirty guard on pull. For a poll tick that observes a remote
row whose timestamp is newer than the last known one: if the adapter is
dirty, the store's data is untouched by the tick; if it is clean, the
full row is imported through the migration-safe import path
(`importState`), the last-known-remote timestamp is set to the row's
timestamp, and the dirty flag remains `false`. -/
theorem c1_dirty_guard_on_pull (now : Int) (a : SyncAdapterState) (d : RawValue)
    (row : RemoteRow) (hnew : tsNewer row.updatedAt a.lastRemoteUpdatedAt = true) :
    (a.isDirty = true → (pollStep now true true (some row) a d).2 = d) ∧
    (a.isDirty = false → ∀ nd, row.payload.truthy = true →
       importStateE now row.payload = Except.ok nd →
       pollStep now true true (some row) a d =
         ({ a with isDirty := false, lastRemoteUpdatedAt := some row.updatedAt,
                   lastStateHash := some nd }, nd)) := by
  constructor
  · intro hdirty
    simp [pollStep, hnew, hdirty]
  · intro hclean nd hpayload himport
    simp [pollStep, hnew, hclean, performPullStep, hpayload, himport]

/-- C1 witness: a dirty adapter seeing a newer remote timestamp keeps its
store data unchanged on that poll tick. -/
theorem c1_dirty_guard_on_pull_witness :
    (pollStep 0 true true (some { updatedAt := 7, payload := RawValue.obj [] })
        { isDirty := true, lastLocalSaveAt := none, lastRemoteUpdatedAt := some 3,
          lastStateHash := none } RawValue.null).2 = RawValue.null :=
  (c1_dirty_guard_on_pull 0
    { isDirty := true, lastLocalSaveAt := none, lastRemoteUpdatedAt := some 3,
      lastStateHash := none } RawValue.null
    { updatedAt := 7, payload := RawValue.obj [] } (by decide)).1 rfl

/-- C10 (implicit claim): `unpostIdea` does not require `done` status.
For any state in which the id resolves to an idea — whatever its status —
the action rewrites that idea to status `working` with a fresh
`updatedAt` stamp and removes any `done` entry under the id; and when the
id resolves to no idea the action is a strict no-op. -/
theorem c10_unpost_ignores_status (s : AppData) (id : String) (now : Int) :
    ((s.ideas.find? (fun i => i.id = id)).isSome = true →
      (unpostIdea now id s).ideas = s.ideas.map (fun i =>
          if i.id = id then { i with status := .working, updatedAt := some now } else i) ∧
      (unpostIdea now id s).done = s.done.filter (fun kv => kv.1 ≠ id) ∧
      alGet (unpostIdea now id s).done id = none) ∧
    (s.ideas.find? (fun i => i.id = id) = none → unpostIdea now id s = s) := by
  constructor
  · intro hsome
    cases hfind : s.ideas.find? (fun i => i.id = id) with
    | none => rw [hfind] at hsome; simp at hsome
    | some idea =>
      refine ⟨?_, ?_, ?_⟩
      · simp [unpostIdea, hfind]
      · simp [unpostIdea, hfind]
      · simp only [unpostIdea, hfind]
        exact alGet_filterOut_self s.done id
  · intro hnone
    simp [unpostIdea, hnone]

/-- C10 witness: unposting a brainstorming idea with an orphaned done
record flips it to `working` and deletes the record. -/
theorem c10_unpost_ignores_status_witness :
    (unpostIdea 7 "i1" c10State).ideas = c10State.ideas.map (fun i =>
        if i.id = "i1" then { i with status := .working, updatedAt := some 7 } else i) ∧
    (unpostIdea 7 "i1" c10State).done = c10State.done.filter (fun kv => kv.1 ≠ "i1") ∧
    alGet (unpostIdea 7 "i1" c10State).done "i1" = none :=
  (c10_unpost_ignores_status c10State "i1" 7).1 (by decide)

/-- C4: the claim as stated is false. The invariant is not maintained
under every sequence of public actions: `setIdeaStatus` accepts the value
`done` and flips an idea's status without creating a done record, so two
public actions starting from the default state reach a state where an
idea has status `done` while `done` holds no record under its id. -/
theorem c4_done_consistency_counterexample :
    ¬ doneConsistent (runSeq
      [Action.addIdea 1 none "x", Action.setIdeaStatus 2 "idea-1" IdeaStatus.done]
      defaultStateT) := by
  decide

/-- C4 (amended): the status/done equivalence (`idea.status == 'done'`
iff `done[idea.id]` exists) holds in every state reachable from the
default state by public actions, provided the sequence keeps to the
`okA` discipline: `setIdeaStatus` is never called with `done` and never
on an idea already `done`, `updateIdea`/`updateIdeaFields` patches touch
neither `status` nor `id`, a fresh idea id has no orphaned done record,
and `importState` (which can inject arbitrary `ideas`/`done` snapshots)
is not used. -/
theorem c4_done_consistency_amended (acts : List Action)
    (hok : okChain acts defaultStateT) :
    doneConsistent (runSeq acts defaultStateT) :=
  runSeq_preserves acts defaultStateT hok doneConsistent_default

/-- C4 witness: a full compliant lifecycle — add, start working, post,
unpost — lands in a consistent state. -/
theorem c4_done_consistency_amended_witness :
    doneConsistent (runSeq
      [Action.addIdea 1 none "x", Action.setIdeaStatus 2 "idea-1" IdeaStatus.working,
       Action.markIdeaPosted 3 "idea-1", Action.unpostIdea 4 "idea-1"]
      defaultStateT) :=
  c4_done_consistency_amended _ (by decide)

/-- C6: the claim as stated is false in one detail. For an idea whose
`bin_id` is the empty string, the stored snapshot's `binId` is absent
(`idea.bin_id || undefined` collapses falsy values), so the snapshot does
not equal the idea's current bin id at that input. -/
theorem c6_posting_lifecycle_counterexample :
    ¬ ((alGet (markIdeaPosted 5 "i1" c6State).done "i1").map
          (fun r => r.snapshot.binId) =
       (c6State.ideas.find? (fun i => i.id = "i1")).map Idea.bin_id) := by
  decide

/-- C6 (amended): the posting lifecycle. When the id resolves to an idea
already `done`, `markIdeaPosted` is a strict no-op. Otherwise it stores
under `done[id]` a record stamped `movedAt = now` whose snapshot carries
exactly the idea's current working fields — with a falsy (absent or
empty-string) `bin_id` recorded as absent, per `idea.bin_id || undefined`
— and rewrites every idea with that id to status `done`; a subsequent
`unpostIdea` rewrites it to status `working` and removes the done entry
under the id entirely. -/
theorem c6_posting_lifecycle_amended (s : AppData) (id : String) (now now2 : Int)
    (idea : Idea) (hfind : s.ideas.find? (fun i => i.id = id) = some idea) :
    (idea.status = .done → markIdeaPosted now id s = s) ∧
    (idea.status ≠ .done →
      alGet (markIdeaPosted now id s).done id = some (mkDoneRecord now id idea) ∧
      (markIdeaPosted now id s).ideas = s.ideas.map (fun i =>
        if i.id = id then { i with status := .done, updatedAt := some now } else i) ∧
      (unpostIdea now2 id (markIdeaPosted now id s)).ideas = s.ideas.map (fun i =>
        if i.id = id then { i with status := .working, updatedAt := some now2 } else i) ∧
      alGet (unpostIdea now2 id (markIdeaPosted now id s)).done id = none) := by
  constructor
  · intro hdone
    simp [markIdeaPosted, hfind, hdone]
  · intro hnd
    have hmark : markIdeaPosted now id s =
        { s with
          ideas := s.ideas.map (fun i =>
            if i.id = id then { i with status := .done, updatedAt := some now } else i),
          done := alSet s.done id (mkDoneRecord now id idea) } := by
      simp [markIdeaPosted, hfind, hnd, mkDoneRecord]
    have hfind2 : ((markIdeaPosted now id s).ideas.find? (fun i => i.id = id)).isSome
        = true := by
      rw [hmark]
      show (List.find? _ (s.ideas.map _)).isSome = true
      rw [List.find?_map]
      have hpred : ((fun i : Idea => decide (i.id = id)) ∘ (fun i : Idea =>
          if i.id = id then { i with status := IdeaStatus.done, updatedAt := some now }
          else i)) = fun i : Idea => decide (i.id = id) := by
        funext i
        by_cases hi : i.id = id <;> simp [hi]
      rw [hpred, hfind]
      rfl
    refine ⟨?_, ?_, ?_, ?_⟩
    · rw [hmark]
      exact alGet_alSet_self s.done id _
    · rw [hmark]
    · cases hf2 : (markIdeaPosted now id s).ideas.find? (fun i => i.id = id) with
      | none => rw [hf2] at hfind2; simp at hfind2
      | some j =>
        have : (unpostIdea now2 id (markIdeaPosted now id s)).ideas =
            (markIdeaPosted now id s).ideas.map (fun i =>
              if i.id = id then
                { i with status := IdeaStatus.working, updatedAt := some now2 }
              else i) := by
          simp [unpostIdea, hf2]
        rw [this, hmark]
        show (s.ideas.map _).map _ = s.ideas.map _
        rw [List.map_map]
        refine List.map_congr_left (fun i _ => ?_)
        by_cases hi : i.id = id <;> simp [hi]
    · cases hf2 : (markIdeaPosted now id s).ideas.find? (fun i => i.id = id) with
      | none => rw [hf2] at hfind2; simp at hfind2
      | some j =>
        have : (unpostIdea now2 id (markIdeaPosted now id s)).done =
            (markIdeaPosted now id s).done.filter (fun kv => kv.1 ≠ id) := by
          simp [unpostIdea, hf2]
        rw [this]
        exact alGet_filterOut_self _ id

/-- C6 witness: posting then unposting a working idea with a plain bin id
stores and then removes the expected record. -/
theorem c6_posting_lifecycle_amended_witness :
    alGet (markIdeaPosted 5 "i1" c10State).done "i1" = some (mkDoneRecord 5 "i1"
      { id := "i1", workspace_id := "ws-1", bin_id := none, text := "note",
        status := .brainstorming, createdAt := 0 }) ∧
    alGet (unpostIdea 6 "i1" (markIdeaPosted 5 "i1" c10State)).done "i1" = none := by
  have h := (c6_posting_lifecycle_amended c10State "i1" 5 6
    { id := "i1", workspace_id := "ws-1", bin_id := none, text := "note",
      status := .brainstorming, createdAt := 0 } (by decide)).2 (by decide)
  exact ⟨h.1, h.2.2.2⟩

theorem upperLowerTable_no_space :
    ∀ p ∈ upperLowerTable, isJsSpace p.1 = false ∧ isJsSpace p.2 = false := by
  decide

theorem isJsSpace_jsLowerChar (c : Char) : isJsSpace (jsLowerChar c) = isJsSpace c := by
  unfold jsLowerChar
  cases hf : upperLowerTable.find? (fun p => p.1 = c) with
  | none => rfl
  | some p =>
    have hmem := List.mem_of_find?_eq_some hf
    have hc : p.1 = c := by simpa using List.find?_some hf
    have hns := upperLowerTable_no_space p hmem
    show isJsSpace p.2 = isJsSpace c
    rw [hns.2, ← hc, hns.1]

theorem caseEq_isJsSpace {c w : Char} (h : jsLowerChar c = jsLowerChar w) :
    isJsSpace c = isJsSpace w := by
  rw [← isJsSpace_jsLowerChar c, h, isJsSpace_jsLowerChar]

theorem caseEq_forall2_dropWhile {l1 l2 : List Char}
    (h : List.Forall₂ (fun a b => jsLowerChar a = jsLowerChar b) l1 l2) :
    List.Forall₂ (fun a b => jsLowerChar a = jsLowerChar b)
      (l1.dropWhile isJsSpace) (l2.dropWhile isJsSpace) := by
  induction h with
  | nil => exact List.Forall₂.nil
  | @cons a b la lb hab hrest ih =>
    rw [List.dropWhile_cons, List.dropWhile_cons]
    have hsp : isJsSpace a = isJsSpace b := caseEq_isJsSpace hab
    by_cases hs : isJsSpace a = true
    · rw [if_pos hs, if_pos (hsp ▸ hs)]
      exact ih
    · rw [if_neg hs, if_neg (hsp ▸ hs)]
      exact List.Forall₂.cons hab hrest

theorem caseEq_forall2_map {l1 l2 : List Char}
    (h : List.Forall₂ (fun a b => jsLowerChar a = jsLowerChar b) l1 l2) :
    l1.map jsLowerChar = l2.map jsLowerChar := by
  induction h with
  | nil => rfl
  | @cons a b la lb hab hrest ih => simp [hab, ih]

theorem caseEq_jsTrim {l1 l2 : List Char}
    (h : List.Forall₂ (fun a b => jsLowerChar a = jsLowerChar b) l1 l2) :
    List.Forall₂ (fun a b => jsLowerChar a = jsLowerChar b) (jsTrim l1) (jsTrim l2) := by
  unfold jsTrim
  exact List.forall₂_reverse_iff.mpr
    (caseEq_forall2_dropWhile
      (List.forall₂_reverse_iff.mpr (caseEq_forall2_dropWhile h)))

theorem dropWhile_append_spaces (w l : List Char)
    (hw : ∀ c ∈ w, isJsSpace c = true) :
    (w ++ l).dropWhile isJsSpace = l.dropWhile isJsSpace := by
  induction w with
  | nil => rfl
  | cons c w ih =>
    rw [List.cons_append, List.dropWhile_cons, if_pos (hw c (List.mem_cons_self c w))]
    exact ih (fun d hd => hw d (List.mem_cons_of_mem c hd))

theorem dropWhile_spaces_nil (w : List Char) (hw : ∀ c ∈ w, isJsSpace c = true) :
    w.dropWhile isJsSpace = [] := by
  have := dropWhile_append_spaces w [] hw
  simpa using this

theorem jsTrim_pad (w1 w2 s : List Char)
    (hw1 : ∀ c ∈ w1, isJsSpace c = true) (hw2 : ∀ c ∈ w2, isJsSpace c = true) :
    jsTrim (w1 ++ s ++ w2) = jsTrim s := by
  unfold jsTrim
  rw [List.append_assoc, dropWhile_append_spaces w1 _ hw1, List.dropWhile_append]
  by_cases he : (s.dropWhile isJsSpace).isEmpty
  · rw [if_pos he, dropWhile_spaces_nil w2 hw2, List.isEmpty_iff.mp he]
  · rw [if_neg he, List.reverse_append,
      dropWhile_append_spaces w2.reverse _
        (fun c hc => hw2 c (List.mem_reverse.mp hc))]

/-- C7: workspace-key normalization. Every remote operation keys its row
by `normalizeWorkspaceKey = trim().toLowerCase()`; any identifier that is
a case variant of a whitespace-padded identifier computes the same row
key, and in particular the strings with the characters of " Brand ",
"brand" and "BRAND" all map to "brand". -/
theorem c7_workspace_key_normalization :
    (∀ (w1 w2 s t : List Char),
        (∀ c ∈ w1, isJsSpace c = true) → (∀ c ∈ w2, isJsSpace c = true) →
        List.Forall₂ (fun a b => jsLowerChar a = jsLowerChar b) t (w1 ++ s ++ w2) →
        normalizeWorkspaceKey (String.mk t) = normalizeWorkspaceKey (String.mk s)) ∧
    normalizeWorkspaceKey " Brand " = "brand" ∧
    normalizeWorkspaceKey "brand" = "brand" ∧
    normalizeWorkspaceKey "BRAND" = "brand" := by
  refine ⟨?_, by decide, by decide, by decide⟩
  intro w1 w2 s t hw1 hw2 hf
  have h1 := caseEq_jsTrim hf
  rw [jsTrim_pad w1 w2 s hw1 hw2] at h1
  show String.mk ((jsTrim t).map jsLowerChar) = String.mk ((jsTrim s).map jsLowerChar)
  exact congrArg String.mk (caseEq_forall2_map h1)

/-- C7 witness: a case variant with leading whitespace computes the same
key as the bare lowercase name. -/
theorem c7_workspace_key_normalization_witness :
    normalizeWorkspaceKey (String.mk [' ', 'B']) =
      normalizeWorkspaceKey (String.mk ['b']) :=
  c7_workspace_key_normalization.1 [' '] [] ['b'] [' ', 'B'] (by decide) (by decide)
    (List.Forall₂.cons (by decide) (List.Forall₂.cons (by decide) List.Forall₂.nil))

/-! ## Scheduler executor lemmas (for claim C5) -/

theorem minDue_none_iff (a : Option (TimerKind × Int)) (k : TimerKind)
    (t : Option Int) : minDue a k t = none ↔ a = none ∧ t = none := by
  cases t with
  | none => simp [minDue]
  | some d =>
    cases a with
    | none => simp [minDue]
    | some b => simp only [minDue]; split <;> simp

theorem minDue_le (a : Option (TimerKind × Int)) (k : TimerKind) (t : Option Int)
    (kr : TimerKind) (dr : Int) (h : minDue a k t = some (kr, dr)) :
    (∀ x, t = some x → dr ≤ x) ∧ (∀ kb db, a = some (kb, db) → dr ≤ db) := by
  cases t with
  | none =>
    simp only [minDue] at h
    exact ⟨by simp, fun kb db hb => by rw [hb] at h; cases h; exact le_refl dr⟩
  | some d =>
    cases a with
    | none =>
      simp only [minDue] at h
      cases h
      exact ⟨by simp, by simp⟩
    | some b =>
      obtain ⟨kb, db⟩ := b
      simp only [minDue] at h
      split at h <;> cases h
      · constructor
        · intro x hx; cases hx; exact le_refl dr
        · intro kb2 db2 hb; cases hb; omega
      · constructor
        · intro x hx; cases hx; omega
        · intro kb2 db2 hb; cases hb; exact le_refl dr

theorem minDue_mem (a : Option (TimerKind × Int)) (k : TimerKind) (t : Option Int)
    (kr : TimerKind) (dr : Int) (h : minDue a k t = some (kr, dr)) :
    (kr = k ∧ t = some dr) ∨ a = some (kr, dr) := by
  cases t with
  | none => simp only [minDue] at h; exact Or.inr h
  | some d =>
    cases a with
    | none => simp only [minDue] at h; cases h; exact Or.inl ⟨rfl, rfl⟩
    | some b =>
      simp only [minDue] at h
      split at h <;> cases h
      · exact Or.inl ⟨rfl, rfl⟩
      · exact Or.inr rfl

theorem pickTimer_none_iff (s : BackupSchedState) :
    pickTimer s = none ↔
      s.debounceDue = none ∧ s.maxWaitDue = none ∧ s.watchdogDue = none := by
  unfold pickTimer
  rw [minDue_none_iff, minDue_none_iff, minDue_none_iff]
  tauto

theorem pickTimer_due_le (s : BackupSchedState) (k : TimerKind) (d : Int)
    (h : pickTimer s = some (k, d)) :
    (∀ x, s.debounceDue = some x → d ≤ x) ∧
    (∀ x, s.maxWaitDue = some x → d ≤ x) ∧
    (∀ x, s.watchdogDue = some x → d ≤ x) := by
  unfold pickTimer at h
  obtain ⟨hw, hrest⟩ := minDue_le _ _ _ _ _ h
  refine ⟨?_, ?_, fun x hx => hw x hx⟩
  · intro x hx
    cases hmid : minDue (minDue none TimerKind.debounce s.debounceDue)
        TimerKind.maxWait s.maxWaitDue with
    | none =>
      rw [minDue_none_iff, minDue_none_iff] at hmid
      rw [hmid.1.2] at hx
      cases hx
    | some b =>
      obtain ⟨kb, db⟩ := b
      have hdb := hrest kb db hmid
      obtain ⟨_, hinner⟩ := minDue_le _ _ _ _ _ hmid
      cases hinit : minDue none TimerKind.debounce s.debounceDue with
      | none =>
        rw [minDue_none_iff] at hinit
        rw [hinit.2] at hx
        cases hx
      | some c =>
        obtain ⟨kc, dc⟩ := c
        have hdc := hinner kc dc hinit
        obtain ⟨hdeb, _⟩ := minDue_le _ _ _ _ _ hinit
        have := hdeb x hx
        omega
  · intro x hx
    cases hmid : minDue (minDue none TimerKind.debounce s.debounceDue)
        TimerKind.maxWait s.maxWaitDue with
    | none =>
      rw [minDue_none_iff] at hmid
      rw [hmid.2] at hx
      cases hx
    | some b =>
      obtain ⟨kb, db⟩ := b
      have hdb := hrest kb db hmid
      obtain ⟨hmw, _⟩ := minDue_le _ _ _ _ _ hmid
      have := hmw x hx
      omega

theorem pickTimer_mem (s : BackupSchedState) (k : TimerKind) (d : Int)
    (h : pickTimer s = some (k, d)) :
    s.debounceDue = some d ∨ s.maxWaitDue = some d ∨ s.watchdogDue = some d := by
  unfold pickTimer at h
  rcases minDue_mem _ _ _ _ _ h with ⟨_, hw⟩ | hmid
  · exact Or.inr (Or.inr hw)
  · rcases minDue_mem _ _ _ _ _ hmid with ⟨_, hm⟩ | hinit
    · exact Or.inr (Or.inl hm)
    · rcases minDue_mem _ _ _ _ _ hinit with ⟨_, hd⟩ | hnone
      · exact Or.inl hd
      · cases hnone

/-- Firing any timer in a dirty state is the same full flush. -/
theorem fire_dirty (k : TimerKind) (d : Int) (s : BackupSchedState)
    (hd : s.isDirty = true) :
    fireTimer k d s =
      { isDirty := false, debounceDue := none, maxWaitDue := none,
        watchdogDue := some (d + WATCHDOG_INTERVAL_MS), lastFlushTime := d,
        pushes := s.pushes ++ [d] } := by
  cases k <;>
    simp [fireTimer, fireDebounce, fireMaxWait, fireWatchdog, performBackupStep,
      clearSchedTimers, hd]

/-- Firing the watchdog in a clean state only disarms it. -/
theorem fire_watchdog_clean (d : Int) (s : BackupSchedState) (hc : s.isDirty = false) :
    fireTimer TimerKind.watchdog d s = { s with watchdogDue := none } := by
  simp [fireTimer, fireWatchdog, performBackupStep, hc]

/-- `scheduleBackup` below the max-wait threshold with the ceiling already
armed: only the dirty flag and the debounce timer move. -/
theorem schedule_below_armed (m : Int) (s : BackupSchedState)
    (hlt : ¬(m - s.lastFlushTime ≥ MAX_WAIT_MS)) (hmw : s.maxWaitDue.isSome = true) :
    scheduleBackupStep m s =
      { s with isDirty := true, debounceDue := some (m + DEBOUNCE_MS) } := by
  cases hm : s.maxWaitDue with
  | none => rw [hm] at hmw; simp at hmw
  | some x => simp [scheduleBackupStep, hlt, hm]

/-- `scheduleBackup` below the max-wait threshold with no ceiling armed:
the ceiling lands exactly at `lastFlushTime + MAX_WAIT_MS`. -/
theorem schedule_below_unarmed (m : Int) (s : BackupSchedState)
    (hlt : ¬(m - s.lastFlushTime ≥ MAX_WAIT_MS)) (hmw : s.maxWaitDue = none) :
    scheduleBackupStep m s =
      { s with isDirty := true, debounceDue := some (m + DEBOUNCE_MS),
               maxWaitDue := some (s.lastFlushTime + MAX_WAIT_MS) } := by
  have harith : m + (MAX_WAIT_MS - (m - s.lastFlushTime)) =
      s.lastFlushTime + MAX_WAIT_MS := by
    unfold MAX_WAIT_MS
    omega
  simp [scheduleBackupStep, hlt, hmw, harith]

/-- A mutation strictly before every armed timer is processed first. -/
theorem schedStep_mut (s : BackupSchedState) (m : Int) (rest : List Int)
    (h : ∀ k d, pickTimer s = some (k, d) → ¬d ≤ m) :
    schedStep s (m :: rest) = some (scheduleBackupStep m s, rest) := by
  unfold schedStep
  cases hp : pickTimer s with
  | none => rfl
  | some kd =>
    obtain ⟨k, d⟩ := kd
    simp [h k d hp]

/-- A due timer at or before the next mutation fires first. -/
theorem schedStep_fire (s : BackupSchedState) (m : Int) (rest : List Int)
    (k : TimerKind) (d : Int) (hp : pickTimer s = some (k, d)) (hle : d ≤ m) :
    schedStep s (m :: rest) = some (fireTimer k d s, m :: rest) := by
  simp [schedStep, hp, hle]

theorem schedRun_no_events (fuel : Nat) (s : BackupSchedState)
    (h : pickTimer s = none) : schedRun fuel s [] = s := by
  cases fuel with
  | zero => rfl
  | succ n => simp [schedRun, schedStep, h]

/-- The scheduler state in the middle of a burst: dirty, the debounce
re-armed by the mutation at `tprev`, the ceiling fixed at the last push
plus the max wait, the watchdog from the last push, nothing pushed yet. -/
def burstState (t0 tprev : Int) : BackupSchedState :=
  { isDirty := true, debounceDue := some (tprev + DEBOUNCE_MS),
    maxWaitDue := some (t0 + MAX_WAIT_MS),
    watchdogDue := some (t0 + WATCHDOG_INTERVAL_MS), lastFlushTime := t0,
    pushes := [] }

theorem sorted_le_getLast :
    ∀ (l : List Int) (a : Int), List.Sorted (· ≤ ·) (a :: l) →
      ∀ m ∈ a :: l, m ≤ (a :: l).getLast (by simp)
  | [], a, _, m, hm => by
      simp at hm
      simp [hm]
  | b :: l, a, hs, m, hm => by
      rw [List.getLast_cons (by simp)]
      rcases List.mem_cons.mp hm with rfl | hm'
      · exact (List.sorted_cons.mp hs).1 _
          (List.getLast_mem (l := b :: l) (by simp))
      · exact sorted_le_getLast l b (List.sorted_cons.mp hs).2 m hm'

theorem schedRun_step (f : Nat) (s s2 : BackupSchedState) (muts muts2 : List Int)
    (h : schedStep s muts = some (s2, muts2)) :
    schedRun (f + 1) s muts = schedRun f s2 muts2 := by
  simp [schedRun, h]

theorem burst_phase (t0 : Int) :
    ∀ (rest : List Int) (tprev : Int),
      List.Sorted (· ≤ ·) (tprev :: rest) →
      (∀ m ∈ rest, m < tprev + DEBOUNCE_MS) →
      (∀ m ∈ rest, m < t0 + MAX_WAIT_MS) →
      t0 ≤ tprev → tprev < t0 + MAX_WAIT_MS →
      ∀ fuel : Nat, fuel ≥ rest.length + 2 →
      (schedRun fuel (burstState t0 tprev) rest).pushes =
        [min ((tprev :: rest).getLast (by simp) + DEBOUNCE_MS) (t0 + MAX_WAIT_MS)]
  | [], tprev, _, _, _, _, hlt, fuel, hfuel => by
      obtain ⟨f1, rfl⟩ : ∃ f1, fuel = f1 + 1 := ⟨fuel - 1, by omega⟩
      obtain ⟨f2, rfl⟩ : ∃ f2, f1 = f2 + 1 := ⟨f1 - 1, by omega⟩
      simp only [List.getLast_singleton]
      by_cases hcmp : t0 + MAX_WAIT_MS < tprev + DEBOUNCE_MS
      · have hno_wd : ¬(t0 + WATCHDOG_INTERVAL_MS < t0 + MAX_WAIT_MS) := by
          unfold WATCHDOG_INTERVAL_MS MAX_WAIT_MS
          omega
        have hpick : pickTimer (burstState t0 tprev) =
            some (TimerKind.maxWait, t0 + MAX_WAIT_MS) := by
          simp [pickTimer, minDue, burstState, hcmp, hno_wd]
        have hstep1 : schedStep (burstState t0 tprev) [] =
            some ({ isDirty := false, debounceDue := none, maxWaitDue := none,
                    watchdogDue := some (t0 + MAX_WAIT_MS + WATCHDOG_INTERVAL_MS),
                    lastFlushTime := t0 + MAX_WAIT_MS,
                    pushes := [t0 + MAX_WAIT_MS] }, []) := by
          simp only [schedStep, hpick]
          rw [fire_dirty _ _ _ rfl]
          simp [burstState]
        rw [schedRun_step _ _ _ _ _ hstep1]
        have hpick1 : pickTimer
            ({ isDirty := false, debounceDue := none, maxWaitDue := none,
               watchdogDue := some (t0 + MAX_WAIT_MS + WATCHDOG_INTERVAL_MS),
               lastFlushTime := t0 + MAX_WAIT_MS,
               pushes := [t0 + MAX_WAIT_MS] } : BackupSchedState) =
            some (TimerKind.watchdog, t0 + MAX_WAIT_MS + WATCHDOG_INTERVAL_MS) := by
          simp [pickTimer, minDue]
        have hstep2 : schedStep
            ({ isDirty := false, debounceDue := none, maxWaitDue := none,
               watchdogDue := some (t0 + MAX_WAIT_MS + WATCHDOG_INTERVAL_MS),
               lastFlushTime := t0 + MAX_WAIT_MS,
               pushes := [t0 + MAX_WAIT_MS] } : BackupSchedState) [] =
            some ({ isDirty := false, debounceDue := none, maxWaitDue := none,
                    watchdogDue := none, lastFlushTime := t0 + MAX_WAIT_MS,
                    pushes := [t0 + MAX_WAIT_MS] }, []) := by
          simp only [schedStep, hpick1]
          rw [fire_watchdog_clean _ _ rfl]
        rw [schedRun_step _ _ _ _ _ hstep2]
        rw [schedRun_no_events f2 _ (by rw [pickTimer_none_iff]; exact ⟨rfl, rfl, rfl⟩)]
        simp [min_eq_right (le_of_lt hcmp)]
      · have hno_wd : ¬(t0 + WATCHDOG_INTERVAL_MS < tprev + DEBOUNCE_MS) := by
          unfold WATCHDOG_INTERVAL_MS DEBOUNCE_MS MAX_WAIT_MS at *
          omega
        have hpick : pickTimer (burstState t0 tprev) =
            some (TimerKind.debounce, tprev + DEBOUNCE_MS) := by
          simp [pickTimer, minDue, burstState, hcmp, hno_wd]
        have hstep1 : schedStep (burstState t0 tprev) [] =
            some ({ isDirty := false, debounceDue := none, maxWaitDue := none,
                    watchdogDue := some (tprev + DEBOUNCE_MS + WATCHDOG_INTERVAL_MS),
                    lastFlushTime := tprev + DEBOUNCE_MS,
                    pushes := [tprev + DEBOUNCE_MS] }, []) := by
          simp only [schedStep, hpick]
          rw [fire_dirty _ _ _ rfl]
          simp [burstState]
        rw [schedRun_step _ _ _ _ _ hstep1]
        have hpick1 : pickTimer
            ({ isDirty := false, debounceDue := none, maxWaitDue := none,
               watchdogDue := some (tprev + DEBOUNCE_MS + WATCHDOG_INTERVAL_MS),
               lastFlushTime := tprev + DEBOUNCE_MS,
               pushes := [tprev + DEBOUNCE_MS] } : BackupSchedState) =
            some (TimerKind.watchdog, tprev + DEBOUNCE_MS + WATCHDOG_INTERVAL_MS) := by
          simp [pickTimer, minDue]
        have hstep2 : schedStep
            ({ isDirty := false, debounceDue := none, maxWaitDue := none,
               watchdogDue := some (tprev + DEBOUNCE_MS + WATCHDOG_INTERVAL_MS),
               lastFlushTime := tprev + DEBOUNCE_MS,
               pushes := [tprev + DEBOUNCE_MS] } : BackupSchedState) [] =
            some ({ isDirty := false, debounceDue := none, maxWaitDue := none,
                    watchdogDue := none, lastFlushTime := tprev + DEBOUNCE_MS,
                    pushes := [tprev + DEBOUNCE_MS] }, []) := by
          simp only [schedStep, hpick1]
          rw [fire_watchdog_clean _ _ rfl]
        rw [schedRun_step _ _ _ _ _ hstep2]
        rw [schedRun_no_events f2 _ (by rw [pickTimer_none_iff]; exact ⟨rfl, rfl, rfl⟩)]
        simp [min_eq_left (by omega : tprev + DEBOUNCE_MS ≤ t0 + MAX_WAIT_MS)]
  | m :: rest, tprev, hsort, hb, hceil, ht0, hlt, fuel, hfuel => by
      obtain ⟨f1, rfl⟩ : ∃ f1, fuel = f1 + 1 := ⟨fuel - 1, by omega⟩
      have hm_deb : m < tprev + DEBOUNCE_MS := hb m (List.mem_cons_self m rest)
      have hm_ceil : m < t0 + MAX_WAIT_MS := hceil m (List.mem_cons_self m rest)
      have hstep : schedStep (burstState t0 tprev) (m :: rest) =
          some (scheduleBackupStep m (burstState t0 tprev), rest) := by
        refine schedStep_mut _ _ _ (fun k d hp => ?_)
        rcases pickTimer_mem _ _ _ hp with hd | hd | hd <;>
          · simp only [burstState, Option.some.injEq] at hd
            subst hd
            try simp only [DEBOUNCE_MS, MAX_WAIT_MS, WATCHDOG_INTERVAL_MS] at *
            omega
      have hnotmax : ¬(m - (burstState t0 tprev).lastFlushTime ≥ MAX_WAIT_MS) := by
        unfold MAX_WAIT_MS at *
        simp only [burstState]
        omega
      have hsched : scheduleBackupStep m (burstState t0 tprev) = burstState t0 m := by
        rw [schedule_below_armed m _ hnotmax (by simp [burstState])]
        simp [burstState]
      rw [schedRun_step _ _ _ _ _ hstep, hsched, List.getLast_cons (by simp)]
      have htpm : tprev ≤ m := (List.sorted_cons.mp hsort).1 m (List.mem_cons_self m rest)
      exact burst_phase t0 rest m (List.sorted_cons.mp hsort).2
        (fun x hx => lt_of_lt_of_le (hb x (List.mem_cons_of_mem m hx)) (by omega))
        (fun x hx => hceil x (List.mem_cons_of_mem m hx))
        (le_trans ht0 htpm) hm_ceil f1 (by simp at hfuel ⊢; omega)

theorem pickTimer_kinds (s : BackupSchedState) (k : TimerKind) (d : Int)
    (h : pickTimer s = some (k, d)) :
    (k = TimerKind.debounce ∧ s.debounceDue = some d) ∨
    (k = TimerKind.maxWait ∧ s.maxWaitDue = some d) ∨
    (k = TimerKind.watchdog ∧ s.watchdogDue = some d) := by
  unfold pickTimer at h
  rcases minDue_mem _ _ _ _ _ h with ⟨hk, hw⟩ | hmid
  · exact Or.inr (Or.inr ⟨hk, hw⟩)
  · rcases minDue_mem _ _ _ _ _ hmid with ⟨hk, hm⟩ | hinit
    · exact Or.inr (Or.inl ⟨hk, hm⟩)
    · rcases minDue_mem _ _ _ _ _ hinit with ⟨hk, hd⟩ | hnone
      · exact Or.inl ⟨hk, hd⟩
      · cases hnone

/-- The invariant of the ceiling argument: pushes never drift more than
the max wait apart, the first one lands within the max wait of the
initial flush time, the ceiling timer is pinned to the last flush while
dirty, and pending mutations stay within one debounce window of the last
consumed mutation `prev`. -/
structure CeilInv (t0 prev : Int) (s : BackupSchedState) (muts : List Int) : Prop where
  chainPush : List.Chain' (fun p q => q ≤ p + MAX_WAIT_MS) s.pushes
  headPush : ∀ h, s.pushes.head? = some h → h ≤ t0 + MAX_WAIT_MS
  lastFlush : (s.pushes = [] ∧ s.lastFlushTime = t0) ∨
    s.pushes.getLast? = some s.lastFlushTime
  wd : s.watchdogDue = none ∨
    s.watchdogDue = some (s.lastFlushTime + WATCHDOG_INTERVAL_MS)
  dirtyTimers : s.isDirty = true →
    s.debounceDue = some (prev + DEBOUNCE_MS) ∧
    s.maxWaitDue = some (s.lastFlushTime + MAX_WAIT_MS) ∧
    s.lastFlushTime ≤ prev ∧ prev < s.lastFlushTime + MAX_WAIT_MS
  cleanTimers : s.isDirty = false →
    s.debounceDue = none ∧ s.maxWaitDue = none ∧ prev ≤ s.lastFlushTime
  mutsChain : List.Chain' (fun a b => a ≤ b ∧ b < a + DEBOUNCE_MS) muts
  mutsHead : ∀ h, muts.head? = some h →
    prev ≤ h ∧ h < prev + DEBOUNCE_MS ∧ s.lastFlushTime ≤ h

theorem fire_preserves (t0 prev : Int) (s : BackupSchedState) (muts : List Int)
    (k : TimerKind) (d : Int)
    (hinv : CeilInv t0 prev s muts) (hp : pickTimer s = some (k, d))
    (hdm : ∀ x, muts.head? = some x → d ≤ x) :
    CeilInv t0 prev (fireTimer k d s) muts := by
  cases hdirty : s.isDirty with
  | true =>
    obtain ⟨hdeb, hmw, hlfp, hplf⟩ := hinv.dirtyTimers hdirty
    have hdle : d ≤ s.lastFlushTime + MAX_WAIT_MS := (pickTimer_due_le _ _ _ hp).2.1 _ hmw
    have hdgt : prev < d := by
      rcases pickTimer_kinds _ _ _ hp with ⟨_, hdd⟩ | ⟨_, hdd⟩ | ⟨_, hdd⟩
      · rw [hdeb] at hdd
        injection hdd with hdd
        unfold DEBOUNCE_MS at hdd
        omega
      · rw [hmw] at hdd
        injection hdd with hdd
        omega
      · rcases hinv.wd with hw | hw
        · rw [hw] at hdd; cases hdd
        · rw [hw] at hdd
          injection hdd with hdd
          unfold MAX_WAIT_MS WATCHDOG_INTERVAL_MS at *
          omega
    rw [fire_dirty k d s hdirty]
    refine ⟨?_, ?_, ?_, ?_, ?_, ?_, hinv.mutsChain, ?_⟩
    · rw [List.chain'_append]
      refine ⟨hinv.chainPush, List.chain'_singleton _, ?_⟩
      intro x hx y hy
      simp only [List.head?_cons, Option.mem_def, Option.some.injEq] at hy
      subst hy
      rcases hinv.lastFlush with ⟨hnil, _⟩ | hlast
      · rw [hnil] at hx; cases hx
      · rw [hlast] at hx
        simp only [Option.mem_def, Option.some.injEq] at hx
        subst hx
        omega
    · intro h hh
      cases hpu : s.pushes with
      | nil =>
        rw [hpu] at hh
        simp only [List.nil_append, List.head?_cons, Option.some.injEq] at hh
        subst hh
        rcases hinv.lastFlush with ⟨_, hlf⟩ | hlast
        · omega
        · rw [hpu] at hlast; cases hlast
      | cons a l =>
        rw [hpu] at hh
        simp only [List.cons_append, List.head?_cons, Option.some.injEq] at hh
        subst hh
        exact hinv.headPush a (by rw [hpu]; rfl)
    · right
      show (s.pushes ++ [d]).getLast? = some d
      exact List.getLast?_concat _
    · right; rfl
    · intro hcon; cases hcon
    · intro _
      exact ⟨rfl, rfl, le_of_lt hdgt⟩
    · intro x hx
      obtain ⟨h1, h2, _⟩ := hinv.mutsHead x hx
      exact ⟨h1, h2, hdm x hx⟩
  | false =>
    obtain ⟨hdeb, hmw, hplf⟩ := hinv.cleanTimers hdirty
    rcases pickTimer_kinds _ _ _ hp with ⟨hk, hdd⟩ | ⟨hk, hdd⟩ | ⟨hk, hdd⟩
    · rw [hdeb] at hdd; cases hdd
    · rw [hmw] at hdd; cases hdd
    · subst hk
      rw [fire_watchdog_clean d s hdirty]
      refine ⟨hinv.chainPush, hinv.headPush, hinv.lastFlush, Or.inl rfl, ?_, ?_,
        hinv.mutsChain, hinv.mutsHead⟩
      · intro hcon
        rw [show ({ s with watchdogDue := none } : BackupSchedState).isDirty
            = s.isDirty from rfl, hdirty] at hcon
        cases hcon
      · intro _
        exact ⟨hdeb, hmw, hplf⟩

theorem mut_preserves (t0 prev : Int) (s : BackupSchedState) (m : Int)
    (rest : List Int) (hinv : CeilInv t0 prev s (m :: rest))
    (hmd : ∀ k d, pickTimer s = some (k, d) → m < d) :
    CeilInv t0 m (scheduleBackupStep m s) rest := by
  obtain ⟨hpm, hmp, hlfm⟩ := hinv.mutsHead m rfl
  have hresthead : ∀ x, rest.head? = some x →
      m ≤ x ∧ x < m + DEBOUNCE_MS ∧ s.lastFlushTime ≤ x := by
    intro x hx
    cases rest with
    | nil => cases hx
    | cons y t =>
      simp only [List.head?_cons, Option.some.injEq] at hx
      subst hx
      have hrel := (List.chain'_cons.mp hinv.mutsChain).1
      exact ⟨hrel.1, hrel.2, le_trans hlfm hrel.1⟩
  cases hdirty : s.isDirty with
  | true =>
    obtain ⟨hdeb, hmw, hlfp, hplf⟩ := hinv.dirtyTimers hdirty
    have hpick_s : ∃ kd, pickTimer s = some kd := by
      cases hps : pickTimer s with
      | none =>
        rw [pickTimer_none_iff] at hps
        rw [hps.1] at hdeb
        cases hdeb
      | some kd => exact ⟨kd, rfl⟩
    obtain ⟨⟨k, d⟩, hps⟩ := hpick_s
    have hdle := (pickTimer_due_le _ _ _ hps).2.1 _ hmw
    have hmlt : m < s.lastFlushTime + MAX_WAIT_MS := lt_of_lt_of_le (hmd k d hps) hdle
    have hnoimm : ¬(m - s.lastFlushTime ≥ MAX_WAIT_MS) := by omega
    rw [schedule_below_armed m s hnoimm (by rw [hmw]; rfl)]
    refine ⟨hinv.chainPush, hinv.headPush, hinv.lastFlush, hinv.wd, ?_, ?_,
      hinv.mutsChain.tail, ?_⟩
    · intro _
      exact ⟨rfl, hmw, hlfm, hmlt⟩
    · intro hcon; cases hcon
    · intro x hx
      exact hresthead x hx
  | false =>
    obtain ⟨hdeb, hmw, hplf⟩ := hinv.cleanTimers hdirty
    have hnoimm : ¬(m - s.lastFlushTime ≥ MAX_WAIT_MS) := by
      unfold DEBOUNCE_MS MAX_WAIT_MS at *
      omega
    rw [schedule_below_unarmed m s hnoimm hmw]
    refine ⟨hinv.chainPush, hinv.headPush, hinv.lastFlush, hinv.wd, ?_, ?_,
      hinv.mutsChain.tail, ?_⟩
    · intro _
      refine ⟨rfl, rfl, ?_, ?_⟩
      · show s.lastFlushTime ≤ m
        exact hlfm
      · show m < s.lastFlushTime + MAX_WAIT_MS
        unfold DEBOUNCE_MS MAX_WAIT_MS at *
        omega
    · intro hcon; cases hcon
    · intro x hx
      exact hresthead x hx

theorem ceilInv_step (t0 prev : Int) (s s2 : BackupSchedState)
    (muts muts2 : List Int) (hinv : CeilInv t0 prev s muts)
    (h : schedStep s muts = some (s2, muts2)) :
    ∃ prev2, CeilInv t0 prev2 s2 muts2 := by
  cases hp : pickTimer s with
  | none =>
    cases muts with
    | nil =>
      rw [show schedStep s [] = none by simp [schedStep, hp]] at h
      cases h
    | cons m rest =>
      rw [schedStep_mut s m rest (fun k d hpk => by rw [hp] at hpk; cases hpk)] at h
      simp only [Option.some.injEq, Prod.mk.injEq] at h
      obtain ⟨h1, h2⟩ := h
      subst h1
      subst h2
      exact ⟨m, mut_preserves t0 prev s m rest hinv
        (fun k d hpk => by rw [hp] at hpk; cases hpk)⟩
  | some kd =>
    obtain ⟨k, d⟩ := kd
    cases muts with
    | nil =>
      rw [show schedStep s [] = some (fireTimer k d s, []) by simp [schedStep, hp]] at h
      simp only [Option.some.injEq, Prod.mk.injEq] at h
      obtain ⟨h1, h2⟩ := h
      subst h1
      subst h2
      exact ⟨prev, fire_preserves t0 prev s [] k d hinv hp (fun x hx => by cases hx)⟩
    | cons m rest =>
      by_cases hle : d ≤ m
      · rw [schedStep_fire s m rest k d hp hle] at h
        simp only [Option.some.injEq, Prod.mk.injEq] at h
        obtain ⟨h1, h2⟩ := h
        subst h1
        subst h2
        refine ⟨prev, fire_preserves t0 prev s (m :: rest) k d hinv hp ?_⟩
        intro x hx
        simp only [List.head?_cons, Option.some.injEq] at hx
        subst hx
        exact hle
      · rw [schedStep_mut s m rest
          (fun k2 d2 hpk => by rw [hp] at hpk; cases hpk; exact hle)] at h
        simp only [Option.some.injEq, Prod.mk.injEq] at h
        obtain ⟨h1, h2⟩ := h
        subst h1
        subst h2
        refine ⟨m, mut_preserves t0 prev s m rest hinv ?_⟩
        intro k2 d2 hpk
        rw [hp] at hpk
        cases hpk
        omega

theorem ceilInv_run (t0 : Int) : ∀ (fuel : Nat) (s : BackupSchedState)
    (muts : List Int) (prev : Int), CeilInv t0 prev s muts →
    ∃ prev2 muts2, CeilInv t0 prev2 (schedRun fuel s muts) muts2
  | 0, s, muts, prev, hinv => ⟨prev, muts, hinv⟩
  | fuel + 1, s, muts, prev, hinv => by
      cases hstep : schedStep s muts with
      | none =>
        rw [show schedRun (fuel + 1) s muts = s by simp [schedRun, hstep]]
        exact ⟨prev, muts, hinv⟩
      | some r =>
        obtain ⟨s2, muts2⟩ := r
        obtain ⟨prev2, hinv2⟩ := ceilInv_step t0 prev s s2 muts muts2 hinv hstep
        rw [schedRun_step _ _ _ _ _ hstep]
        exact ceilInv_run t0 fuel s2 muts2 prev2 hinv2

theorem ceilInv_init (t0 t1 : Int) (rest : List Int)
    (hstart1 : t0 ≤ t1) (hstart2 : t1 < t0 + DEBOUNCE_MS)
    (hchain : List.Chain' (fun a b => a ≤ b ∧ b < a + DEBOUNCE_MS) (t1 :: rest)) :
    CeilInv t0 t0 (freshPushState t0) (t1 :: rest) := by
  refine ⟨List.chain'_nil, ?_, Or.inl ⟨rfl, rfl⟩, Or.inr rfl, ?_, ?_, hchain, ?_⟩
  · intro h hh; cases hh
  · intro hcon; cases hcon
  · intro _; exact ⟨rfl, rfl, le_refl _⟩
  · intro x hx
    simp only [List.head?_cons, Option.some.injEq] at hx
    subst hx
    exact ⟨hstart1, hstart2, hstart1⟩

theorem burst_from_fresh (t0 t1 : Int) (rest : List Int)
    (hsort : List.Sorted (· ≤ ·) (t1 :: rest)) (ht0 : t0 ≤ t1)
    (hlast_deb : (t1 :: rest).getLast (by simp) < t1 + DEBOUNCE_MS)
    (hlast_ceil : (t1 :: rest).getLast (by simp) < t0 + MAX_WAIT_MS)
    (fuel : Nat) (hfuel : fuel ≥ rest.length + 3) :
    (schedRun fuel (freshPushState t0) (t1 :: rest)).pushes =
      [min ((t1 :: rest).getLast (by simp) + DEBOUNCE_MS) (t0 + MAX_WAIT_MS)] := by
  obtain ⟨f1, rfl⟩ : ∃ f1, fuel = f1 + 1 := ⟨fuel - 1, by omega⟩
  have ht1ceil : t1 < t0 + MAX_WAIT_MS :=
    lt_of_le_of_lt (sorted_le_getLast rest t1 hsort t1 (List.mem_cons_self t1 rest))
      hlast_ceil
  have hpickf : pickTimer (freshPushState t0) =
      some (TimerKind.watchdog, t0 + WATCHDOG_INTERVAL_MS) := by
    simp [pickTimer, minDue, freshPushState]
  have hstep : schedStep (freshPushState t0) (t1 :: rest) =
      some (scheduleBackupStep t1 (freshPushState t0), rest) := by
    refine schedStep_mut _ _ _ (fun k d hp => ?_)
    rw [hpickf] at hp
    cases hp
    unfold MAX_WAIT_MS WATCHDOG_INTERVAL_MS at *
    omega
  have hnotmax : ¬(t1 - (freshPushState t0).lastFlushTime ≥ MAX_WAIT_MS) := by
    show ¬(t1 - t0 ≥ MAX_WAIT_MS)
    omega
  have hsched : scheduleBackupStep t1 (freshPushState t0) = burstState t0 t1 := by
    rw [schedule_below_unarmed t1 _ hnotmax rfl]
    have harith : (freshPushState t0).lastFlushTime + MAX_WAIT_MS = t0 + MAX_WAIT_MS := rfl
    simp [freshPushState, burstState]
  rw [schedRun_step _ _ _ _ _ hstep, hsched]
  exact burst_phase t0 rest t1 hsort
    (fun x hx => lt_of_le_of_lt
      (sorted_le_getLast rest t1 hsort x (List.mem_cons_of_mem t1 hx)) hlast_deb)
    (fun x hx => lt_of_le_of_lt
      (sorted_le_getLast rest t1 hsort x (List.mem_cons_of_mem t1 hx)) hlast_ceil)
    ht0 ht1ceil f1 (by simp at hfuel ⊢; omega)

/-- C5: the claim as stated is false. A burst of two mutations at 9999 and
10001 (span 2 ms, starting 9999 ms after the last push at 0) produces two
pushes: the ceiling fires at 10000 mid-burst and the debounce fires again
at 12501. And a single mutation at 9000 is pushed by the ceiling at 10000,
before its debounce would have elapsed at 11500. -/
theorem c5_debounce_ceiling_counterexample :
    (schedRun 20 (freshPushState 0) [9999, 10001]).pushes = [10000, 12501] ∧
    (schedRun 20 (freshPushState 0) [9000]).pushes = [10000] := by
  refine ⟨by decide, by decide⟩

/-- C5 (amended): debounce/ceiling push scheduling. (burst) For a
nondecreasing burst of mutations that begins at or after the last push
and ends both within one debounce window of its start and strictly before
the ceiling (last push + max wait), exactly one push occurs, at the
earlier of (last mutation + debounce) and (last push + max wait) — when
the burst ends more than a debounce window before the ceiling this is
exactly when the debounce elapses. (ceiling) For mutations that keep
arriving with gaps below the debounce window, starting within one window
of the last push, consecutive pushes are never more than the max wait
(10 s) apart and the first push lands within the max wait of the last
push, at every point of the execution. -/
theorem c5_debounce_ceiling_amended :
    (∀ (t0 t1 : Int) (rest : List Int) (fuel : Nat),
      List.Sorted (· ≤ ·) (t1 :: rest) → t0 ≤ t1 →
      (t1 :: rest).getLast (by simp) < t1 + DEBOUNCE_MS →
      (t1 :: rest).getLast (by simp) < t0 + MAX_WAIT_MS →
      fuel ≥ rest.length + 3 →
      (schedRun fuel (freshPushState t0) (t1 :: rest)).pushes =
        [min ((t1 :: rest).getLast (by simp) + DEBOUNCE_MS) (t0 + MAX_WAIT_MS)]) ∧
    (∀ (t0 t1 : Int) (rest : List Int) (fuel : Nat),
      t0 ≤ t1 → t1 < t0 + DEBOUNCE_MS →
      List.Chain' (fun a b => a ≤ b ∧ b < a + DEBOUNCE_MS) (t1 :: rest) →
      List.Chain' (fun p q => q ≤ p + MAX_WAIT_MS)
        (schedRun fuel (freshPushState t0) (t1 :: rest)).pushes ∧
      (∀ h, ((schedRun fuel (freshPushState t0) (t1 :: rest)).pushes).head? = some h →
        h ≤ t0 + MAX_WAIT_MS)) := by
  constructor
  · intro t0 t1 rest fuel hsort ht0 hdeb hceil hfuel
    exact burst_from_fresh t0 t1 rest hsort ht0 hdeb hceil fuel hfuel
  · intro t0 t1 rest fuel ht0 hstart hchain
    obtain ⟨prev2, muts2, hinv⟩ := ceilInv_run t0 fuel (freshPushState t0) (t1 :: rest)
      t0 (ceilInv_init t0 t1 rest ht0 hstart hchain)
    exact ⟨hinv.chainPush, hinv.headPush⟩

/-- C5 witness: a lone mutation at 5000 after a push at 0 is pushed once,
exactly when its debounce elapses at 7500; and a gap-chained stream
starting at 1000 keeps all pushes within the ceiling. -/
theorem c5_debounce_ceiling_amended_witness :
    (schedRun 4 (freshPushState 0) [5000]).pushes = [7500] ∧
    (∀ h, ((schedRun 10 (freshPushState 0) [1000]).pushes).head? = some h →
      h ≤ 0 + MAX_WAIT_MS) := by
  constructor
  · have h := c5_debounce_ceiling_amended.1 0 5000 [] 4
      (List.sorted_singleton 5000) (by decide) (by decide) (by decide) (by decide)
    rw [h]
    decide
  · exact (c5_debounce_ceiling_amended.2 0 1000 [] 10 (by decide) (by decide)
      (List.chain'_singleton 1000)).2

end ContentPlanner
